import Mathlib

/-!
Shallow embedding of src/ganttTable.js.
The source manipulates JavaScript Date values that are always constructed as
local calendar dates: either local midnight of a calendar day
(new Date(y, m, d) or parseISO, which appends T00:00:00) or the last
millisecond of a month (endOfMonth). A JS Date compares by its time value,
which for such dates is determined lexicographically by
(year, month, day, milliseconds-past-midnight). We therefore embed a Date as
the record of those four fields and embed the relational operators on Dates
as comparisons of a linearization key that is lexicographic on normalized
dates (month in [0,12), day in [1,31], ms in [0, 86400000)).
-/

/-- Embedding of a JavaScript Date as produced by this program: a local
calendar day (getFullYear, getMonth 0-based, getDate 1-based) together with
the milliseconds past local midnight (0 for all task dates and month starts,
86399999 for endOfMonth). -/
structure JSDate where
  year : Int
  month : Int
  day : Int
  ms : Int
deriving DecidableEq, Repr

/-- Linearization of a date into a single integer; on normalized dates this
is a strictly monotone image of the JS time value, so comparing keys embeds
the JS relational operators on Dates. -/
def JSDate.key (d : JSDate) : Int :=
  ((d.year * 12 + d.month) * 32 + d.day) * 86400000 + d.ms

/-- Gregorian leap-year rule, as implemented by the JS Date calendar. -/
def isLeapYear (y : Int) : Bool :=
  (y % 4 == 0 && y % 100 != 0) || y % 400 == 0

/-- Embedding of daysInMonth (source: new Date(year, monthIdx + 1, 0).getDate()),
which the JS engine evaluates by the Gregorian calendar: monthIdx is 0-based. -/
def daysInMonth (year monthIdx : Int) : Int :=
  if monthIdx = 1 then (if isLeapYear year then 29 else 28)
  else if monthIdx = 3 ∨ monthIdx = 5 ∨ monthIdx = 8 ∨ monthIdx = 10 then 30
  else 31

/-- Embedding of startOfMonth: new Date(d.getFullYear(), d.getMonth(), 1). -/
def startOfMonth (d : JSDate) : JSDate :=
  { year := d.year, month := d.month, day := 1, ms := 0 }

/-- Embedding of endOfMonth: new Date(y, m + 1, 0, 23, 59, 59, 999), i.e. the
last day of the month of d at the last millisecond of the day. -/
def endOfMonth (d : JSDate) : JSDate :=
  { year := d.year, month := d.month, day := daysInMonth d.year d.month, ms := 86399999 }

/-- Embedding of addMonths: new Date(d.getFullYear(), d.getMonth() + n, 1).
The JS Date constructor normalizes an out-of-range month into the year, which
is Euclidean division and remainder by 12. -/
def addMonths (d : JSDate) (n : Int) : JSDate :=
  { year := d.year + (d.month + n) / 12, month := (d.month + n) % 12, day := 1, ms := 0 }

/-- Index of the calendar month of a date on the infinite month axis; the
month loop of the source is driven by this quantity. -/
def monthIdx (d : JSDate) : Int := d.year * 12 + d.month

/-- First day of the month with the given month index. -/
def monthStartOfIdx (i : Int) : JSDate :=
  { year := i / 12, month := i % 12, day := 1, ms := 0 }

/-- Embedding of clampIntervalToMonth (source lines 50-54); JS relational
operators on Dates compare time values, embedded here as key comparisons. -/
def clampIntervalToMonth (taskStart taskEnd monthStart monthEnd : JSDate) :
    Option (JSDate × JSDate) :=
  let s := if monthStart.key < taskStart.key then taskStart else monthStart
  let e := if taskEnd.key < monthEnd.key then taskEnd else monthEnd
  if s.key ≤ e.key then some (s, e) else none

/-- Days since the Unix epoch of a civil date (year, 1-based month, day),
computed by the standard Gregorian era decomposition; this is the day count
underlying the JS Date time value for local midnight of that date. -/
def daysFromCivil (y m d : Int) : Int :=
  let y2 := if m ≤ 2 then y - 1 else y
  let era := y2 / 400
  let yoe := y2 - era * 400
  let mp := m + (if 2 < m then -3 else 9)
  let doy := (153 * mp + 2) / 5 + d - 1
  let doe := yoe * 365 + yoe / 4 - yoe / 100 + doy
  era * 146097 + doe - 719468

/-- Embedding of Date.prototype.getDay: 0 = Sunday .. 6 = Saturday
(1970-01-01 was a Thursday, ordinal 4). -/
def getDay (d : JSDate) : Int :=
  (daysFromCivil d.year (d.month + 1) d.day + 4) % 7

/-- Embedding of isWeekend (source lines 45-48). -/
def isWeekend (d : JSDate) : Bool :=
  getDay d == 0 || getDay d == 6

/-- Result of parseISO on the string held in a task field, abstracted to the
three cases the program distinguishes: the field is absent or empty (falsy,
caught by the missing-field check), present but unparseable (parseISO yields
an invalid Date, caught by the isNaN check), or parses to a local-midnight
calendar day. -/
inductive DateField where
  | missing
  | unparseable
  | parsed (d : JSDate)
deriving DecidableEq, Repr, BEq

/-- Embedding of a raw caller-supplied task object; label and color are
absent (none) or a string, where the empty string is also falsy in JS. -/
structure RawTask where
  label : Option String
  start : DateField
  endD : DateField
  color : Option String
deriving DecidableEq, Repr

/-- Truthiness of an optional JS string: undefined, null and the empty
string are falsy. -/
def falsyOpt : Option String → Bool
  | none => true
  | some s => s == ""

/-- Embedding of t.color || defaultColor. -/
def colorOrDefault (c : Option String) (defaultColor : String) : String :=
  match c with
  | some s => if s == "" then defaultColor else s
  | none => defaultColor

/-- Normalized task, as produced by the validation map (source lines 126-143). -/
structure NormTask where
  label : String
  start : JSDate
  endD : JSDate
  color : String
deriving DecidableEq, Repr

/-- Message of the missing-field validation error (source line 128). -/
def invalidTaskMsg (i : Nat) : String :=
  "Tâche invalide à l’index " ++ toString i ++ ". Requis: \x7blabel,start,end\x7d."

/-- Message of the bad-dates validation error (source lines 133-134). -/
def invalidDatesMsg (label : String) : String :=
  "Dates invalides pour \"" ++ label ++ "\". Format attendu YYYY-MM-DD et start <= end."

/-- Embedding of the body of the validation map for the task at index i
(source lines 126-143): missing or falsy fields raise the index error, an
unparseable date (NaN) or start > end raises the label error; otherwise the
task is normalized. -/
def normOne (defaultColor : String) (i : Nat) (t : RawTask) : Except String NormTask :=
  if falsyOpt t.label || t.start == DateField.missing || t.endD == DateField.missing then
    Except.error (invalidTaskMsg i)
  else
    match t.start, t.endD with
    | DateField.parsed s, DateField.parsed e =>
        if e.key < s.key then Except.error (invalidDatesMsg (t.label.getD ""))
        else Except.ok
          { label := t.label.getD "", start := s, endD := e,
            color := colorOrDefault t.color defaultColor }
    | _, _ => Except.error (invalidDatesMsg (t.label.getD ""))

/-- Embedding of tasks.map over the validating callback: the map evaluates in
input order and the first invalid task aborts the whole call with its error. -/
def normalizeTasks (defaultColor : String) (i : Nat) :
    List RawTask → Except String (List NormTask)
  | [] => Except.ok []
  | t :: ts =>
      match normOne defaultColor i t with
      | Except.error e => Except.error e
      | Except.ok nt =>
          match normalizeTasks defaultColor (i + 1) ts with
          | Except.error e => Except.error e
          | Except.ok rest => Except.ok (nt :: rest)

/-- Embedding of the minStart scan (source lines 146-151): fold over all
normalized tasks, starting from norm[0].start. -/
def minStartDate (init : JSDate) (norm : List NormTask) : JSDate :=
  norm.foldl (fun acc t => if t.start.key < acc.key then t.start else acc) init

/-- Embedding of the maxEnd scan (source lines 146-151). -/
def maxEndDate (init : JSDate) (norm : List NormTask) : JSDate :=
  norm.foldl (fun acc t => if acc.key < t.endD.key then t.endD else acc) init

/-- Day numbers 1..dim of a month, in order; the source iterates
for (let d = 1; d <= dim; d++). -/
def dayRange (dim : Int) : List Int :=
  (List.range dim.toNat).map (fun k : Nat => (k : Int) + 1)

/-- Embedding of new Date(x.getFullYear(), x.getMonth(), x.getDate()): the
same calendar day at local midnight (source lines 219-220). -/
def dayFloor (d : JSDate) : JSDate :=
  { year := d.year, month := d.month, day := d.day, ms := 0 }

/-- One cell of a task row: the day number within the month, whether the cell
got the weekend shading class, and whether the gt-bar occupancy span was
emitted into it. -/
structure DayCell where
  dayNumber : Int
  shaded : Bool
  occupied : Bool
deriving DecidableEq, Repr

/-- One task row of a month table (source lines 203-226): the task data shown
in the row header, the clipped segment, and the per-day cells. -/
structure TaskRow where
  label : String
  color : String
  start : JSDate
  endD : JSDate
  segStart : JSDate
  segEnd : JSDate
  cells : List DayCell
deriving DecidableEq, Repr

/-- Row construction for a task whose interval was clipped to the month
(source lines 207-225): cell d is occupied when the midnight of day d lies in
the clipped segment, both segment bounds being floored to midnight. -/
def mkTaskRow (shadeWeekends : Bool) (monthStart : JSDate) (dim : Int)
    (t : NormTask) (seg : JSDate × JSDate) : TaskRow :=
  { label := t.label, color := t.color, start := t.start, endD := t.endD,
    segStart := seg.1, segEnd := seg.2,
    cells := (dayRange dim).map (fun d =>
      let cur : JSDate := { year := monthStart.year, month := monthStart.month, day := d, ms := 0 }
      let inRange := decide ((dayFloor seg.1).key ≤ cur.key) &&
                     decide (cur.key ≤ (dayFloor seg.2).key)
      { dayNumber := d, shaded := shadeWeekends && isWeekend cur, occupied := inRange }) }

/-- Embedding of the per-task body of the month loop (source lines 203-226):
a task with no valid clipped segment contributes nothing (continue),
otherwise it contributes exactly one row. -/
def taskRowForMonth (shadeWeekends : Bool) (monthStart monthEnd : JSDate) (dim : Int)
    (t : NormTask) : Option TaskRow :=
  (clampIntervalToMonth t.start t.endD monthStart monthEnd).map
    (mkTaskRow shadeWeekends monthStart dim t)

/-- Month table as appended to the root element: month identity, day count,
header day columns (day number, weekend shading) and the task rows. -/
structure MonthGrid where
  year : Int
  month : Int
  dayCount : Int
  dayColumns : List (Int × Bool)
  rows : List TaskRow
deriving DecidableEq, Repr

/-- Embedding of one iteration of the month loop (source lines 161-233): the
section for month m is appended to the root only when its tbody got at least
one task row, so an empty month yields none. -/
def buildMonthGrid (shadeWeekends : Bool) (norm : List NormTask) (m : JSDate) :
    Option MonthGrid :=
  let monthStart := startOfMonth m
  let monthEnd := endOfMonth m
  let dim := daysInMonth monthStart.year monthStart.month
  let dayColumns := (dayRange dim).map (fun d =>
    let cur : JSDate := { year := monthStart.year, month := monthStart.month, day := d, ms := 0 }
    (d, shadeWeekends && isWeekend cur))
  let rows := norm.filterMap (taskRowForMonth shadeWeekends monthStart monthEnd dim)
  if 0 < rows.length then
    some { year := monthStart.year, month := monthStart.month, dayCount := dim,
           dayColumns := dayColumns, rows := rows }
  else none

/-- Month indices visited by the loop, given a fuel that bounds the number of
iterations; the loop itself runs while the index does not exceed lastIdx. -/
def monthIndicesAux : Nat → Int → Int → List Int
  | 0, _, _ => []
  | Nat.succ fuel, i, lastIdx =>
      if i ≤ lastIdx then i :: monthIndicesAux fuel (i + 1) lastIdx else []

/-- Month indices visited by the month loop
for (let m = new Date(firstMonth); m <= lastMonth; m = addMonths(m, 1)):
the loop variable is always the first day of a month, the guard compares time
values (equivalently month indices, see key comparison lemmas) and the step
adds one to the month index, so the loop visits exactly the indices from
firstIdx to lastIdx in increasing order. -/
def monthIndices (firstIdx lastIdx : Int) : List Int :=
  monthIndicesAux (lastIdx + 1 - firstIdx).toNat firstIdx lastIdx

/-- Embedding of the partitioning phase of renderGanttAsTables (source lines
146-233): global bounds over the normalized tasks, the month loop, and the
per-month grids that received at least one row, in chronological order. The
empty case never arises in renderGanttAsTables (the task list was checked to
be non-empty and normalization preserves length). -/
def partition (shadeWeekends : Bool) (norm : List NormTask) : List MonthGrid :=
  match norm with
  | [] => []
  | t0 :: _ =>
      let minStart := minStartDate t0.start norm
      let maxEnd := maxEndDate t0.endD norm
      let firstMonth := startOfMonth minStart
      let lastMonth := startOfMonth maxEnd
      (monthIndices (monthIdx firstMonth) (monthIdx lastMonth)).filterMap
        (fun i => buildMonthGrid shadeWeekends norm (monthStartOfIdx i))

/-- Options of renderGanttAsTables that affect the computed structure.
mountFound embeds whether the container option resolved to a non-null
element (for a selector string, whether document.querySelector found a
match; for an element argument, whether it is non-null). injectStyles only
drives the one-time stylesheet injection and is presentation glue. -/
structure RenderOptions where
  mountFound : Bool
  shadeWeekends : Bool
  defaultColor : String
deriving DecidableEq, Repr

/-- Output of a successful call: the ordered month grids appended to the
created root element. -/
structure RenderOutput where
  grids : List MonthGrid
deriving DecidableEq, Repr

/-- Embedding of renderGanttAsTables (source lines 109-237): container
resolution check, non-empty check, validation, then partitioning. A thrown
Error is embedded as Except.error of its message, and an error means nothing
was appended to the mount point. -/
def renderGanttAsTables (tasks : List RawTask) (options : RenderOptions) :
    Except String RenderOutput :=
  if !options.mountFound then Except.error "Container introuvable."
  else if tasks.isEmpty then Except.error "Aucune tâche fournie."
  else
    match normalizeTasks options.defaultColor 0 tasks with
    | Except.error e => Except.error e
    | Except.ok norm => Except.ok { grids := partition options.shadeWeekends norm }

/-- Valid normalized calendar day at local midnight, as parseISO produces:
month in [0, 12), day within the month, no time component. -/
def validDateB (d : JSDate) : Bool :=
  decide (0 ≤ d.month) && decide (d.month < 12) && decide (1 ≤ d.day) &&
    decide (d.day ≤ daysInMonth d.year d.month) && decide (d.ms = 0)

/-- Raw task whose parsed date fields are genuine calendar days; every value
parseISO can produce satisfies this, so it is an ambient invariant of the JS
inputs. -/
def validRawB (t : RawTask) : Bool :=
  (match t.start with | DateField.parsed d => validDateB d | _ => true) &&
  (match t.endD with | DateField.parsed d => validDateB d | _ => true)

/-- Dates with each field inside the range the key linearization separates. -/
def Bounded (d : JSDate) : Prop :=
  0 ≤ d.month ∧ d.month < 12 ∧ 1 ≤ d.day ∧ d.day ≤ 31 ∧ 0 ≤ d.ms ∧ d.ms < 86400000

/-- Local midnight of day dd in the month with index i; the per-day cursor
new Date(monthStart.getFullYear(), monthStart.getMonth(), d) of the source
is this value when the loop month is the month with index i. -/
def mkDay (i dd : Int) : JSDate :=
  { year := i / 12, month := i % 12, day := dd, ms := 0 }

/-- Predicate: the row has a cell for day dd carrying the occupancy bar. -/
def RowMarksDay (row : TaskRow) (dd : Int) : Prop :=
  ∃ c ∈ row.cells, c.dayNumber = dd ∧ c.occupied = true

/-- Statement helper: in grid g (which displays the month of d), the row that
the partitioner emits for task t exists, is one of the rows of g, and its
cell for the day number of d carries the occupancy bar. -/
def GridMarksDayFor (sw : Bool) (t : NormTask) (d : JSDate) (g : MonthGrid) : Prop :=
  g.year = d.year ∧ g.month = d.month ∧
  ∃ row, taskRowForMonth sw (monthStartOfIdx (monthIdx d))
      (endOfMonth (monthStartOfIdx (monthIdx d)))
      (daysInMonth (monthIdx d / 12) (monthIdx d % 12)) t = some row ∧
    row ∈ g.rows ∧ RowMarksDay row d.day

def sampleTasks : List RawTask :=
  [⟨some "Etude", DateField.parsed ⟨2025, 8, 3, 0⟩, DateField.parsed ⟨2025, 8, 10, 0⟩,
    some "#7aa7ff"⟩,
   ⟨some "Fabrication", DateField.parsed ⟨2025, 8, 15, 0⟩, DateField.parsed ⟨2025, 9, 7, 0⟩,
    none⟩]

def sampleOptions : RenderOptions :=
  { mountFound := true, shadeWeekends := true, defaultColor := "#7aa7ff" }

def sampleNorm : List NormTask :=
  [⟨"Etude", ⟨2025, 8, 3, 0⟩, ⟨2025, 8, 10, 0⟩, "#7aa7ff"⟩,
   ⟨"Fabrication", ⟨2025, 8, 15, 0⟩, ⟨2025, 9, 7, 0⟩, "#7aa7ff"⟩]

def sampleOut : RenderOutput :=
  match renderGanttAsTables sampleTasks sampleOptions with
  | Except.ok out => out
  | Except.error _ => { grids := [] }

def singleDayTasks : List RawTask :=
  [⟨some "Jalon", DateField.parsed ⟨2025, 8, 12, 0⟩, DateField.parsed ⟨2025, 8, 12, 0⟩, none⟩]

def singleDayOut : RenderOutput :=
  match renderGanttAsTables singleDayTasks sampleOptions with
  | Except.ok out => out
  | Except.error _ => { grids := [] }

def missingFieldB (t : RawTask) : Bool :=
  falsyOpt t.label || t.start == DateField.missing || t.endD == DateField.missing

def badDatesB (t : RawTask) : Bool :=
  match t.start, t.endD with
  | DateField.parsed s, DateField.parsed e => decide (e.key < s.key)
  | _, _ => true

def malformedB (t : RawTask) : Bool := missingFieldB t || badDatesB t

/-- Message the validation map throws for the task at index i: the
missing-field check fires first and mentions only the index, otherwise the
date check fires and mentions only the label. -/
def errMsgFor (i : Nat) (t : RawTask) : String :=
  if missingFieldB t then invalidTaskMsg i else invalidDatesMsg (t.label.getD "")

theorem daysInMonth_le (y m : Int) : daysInMonth y m ≤ 31 := by
  unfold daysInMonth
  split
  · split <;> omega
  · split <;> omega

theorem daysInMonth_pos (y m : Int) : 28 ≤ daysInMonth y m := by
  unfold daysInMonth
  split
  · split <;> omega
  · split <;> omega

theorem validDateB_bounded {d : JSDate} (h : validDateB d = true) : Bounded d := by
  have hle := daysInMonth_le d.year d.month
  simp only [validDateB, Bool.and_eq_true, decide_eq_true_eq] at h
  exact ⟨h.1.1.1.1, h.1.1.1.2, h.1.1.2, by omega, by omega, by omega⟩

theorem validDateB_ms {d : JSDate} (h : validDateB d = true) : d.ms = 0 := by
  simp only [validDateB, Bool.and_eq_true, decide_eq_true_eq] at h
  exact h.2

theorem validDateB_day_le {d : JSDate} (h : validDateB d = true) :
    d.day ≤ daysInMonth d.year d.month := by
  simp only [validDateB, Bool.and_eq_true, decide_eq_true_eq] at h
  exact h.1.2

/-- Central linearization lemma: on bounded dates, comparing keys is the
lexicographic comparison of (month index, day, milliseconds). -/
theorem key_le_iff {a b : JSDate} (ha : Bounded a) (hb : Bounded b) :
    a.key ≤ b.key ↔
      (monthIdx a < monthIdx b ∨
        (monthIdx a = monthIdx b ∧ (a.day < b.day ∨ (a.day = b.day ∧ a.ms ≤ b.ms)))) := by
  obtain ⟨h1, h2, h3, h4, h5, h6⟩ := ha
  obtain ⟨g1, g2, g3, g4, g5, g6⟩ := hb
  unfold JSDate.key monthIdx
  constructor <;> intro h <;> omega

theorem key_lt_iff {a b : JSDate} (ha : Bounded a) (hb : Bounded b) :
    a.key < b.key ↔
      (monthIdx a < monthIdx b ∨
        (monthIdx a = monthIdx b ∧ (a.day < b.day ∨ (a.day = b.day ∧ a.ms < b.ms)))) := by
  obtain ⟨h1, h2, h3, h4, h5, h6⟩ := ha
  obtain ⟨g1, g2, g3, g4, g5, g6⟩ := hb
  unfold JSDate.key monthIdx
  constructor <;> intro h <;> omega

theorem key_inj {a b : JSDate} (ha : Bounded a) (hb : Bounded b) (h : a.key = b.key) :
    a = b := by
  obtain ⟨h1, h2, h3, h4, h5, h6⟩ := ha
  obtain ⟨g1, g2, g3, g4, g5, g6⟩ := hb
  unfold JSDate.key at h
  have hy : a.year = b.year := by nlinarith [h]
  cases a; cases b
  simp_all
  omega

theorem monthIdx_le_of_key_le {a b : JSDate} (ha : Bounded a) (hb : Bounded b)
    (h : a.key ≤ b.key) : monthIdx a ≤ monthIdx b := by
  rcases (key_le_iff ha hb).mp h with h | h
  · omega
  · omega

theorem bounded_monthStartOfIdx (i : Int) : Bounded (monthStartOfIdx i) := by
  unfold monthStartOfIdx Bounded
  simp only
  omega

theorem bounded_endOfMonthStart (i : Int) : Bounded (endOfMonth (monthStartOfIdx i)) := by
  unfold monthStartOfIdx endOfMonth Bounded
  simp only
  have h1 := daysInMonth_le (i / 12) (i % 12)
  have h2 := daysInMonth_pos (i / 12) (i % 12)
  omega

theorem monthIdx_monthStartOfIdx (i : Int) : monthIdx (monthStartOfIdx i) = i := by
  unfold monthIdx monthStartOfIdx
  simp only
  omega

theorem monthStartOfIdx_eq {d : JSDate} (h : 0 ≤ d.month ∧ d.month < 12) :
    monthStartOfIdx (monthIdx d) = startOfMonth d := by
  unfold monthStartOfIdx monthIdx startOfMonth
  cases d
  simp only [JSDate.mk.injEq, and_true] at h ⊢
  omega

theorem monthIndices_eq_loop (a b : Int) :
    monthIndices a b = if a ≤ b then a :: monthIndices (a + 1) b else [] := by
  unfold monthIndices
  split
  · next h =>
      have he : (b + 1 - a).toNat = (b + 1 - (a + 1)).toNat + 1 := by omega
      rw [he]
      simp only [monthIndicesAux, if_pos h]
  · next h =>
      have he : (b + 1 - a).toNat = 0 := by omega
      rw [he]
      rfl

theorem monthIndicesAux_mem (fuel : Nat) :
    ∀ a b j : Int, b + 1 - a ≤ fuel →
      (j ∈ monthIndicesAux fuel a b ↔ a ≤ j ∧ j ≤ b) := by
  induction fuel with
  | zero =>
      intro a b j h
      simp only [monthIndicesAux, List.not_mem_nil, false_iff]
      omega
  | succ fuel ih =>
      intro a b j h
      simp only [monthIndicesAux]
      split
      · next hab =>
          rw [List.mem_cons, ih (a + 1) b j (by omega)]
          omega
      · next hab =>
          simp only [List.not_mem_nil, false_iff]
          omega

theorem mem_monthIndices (a b j : Int) : j ∈ monthIndices a b ↔ a ≤ j ∧ j ≤ b := by
  unfold monthIndices
  exact monthIndicesAux_mem _ a b j (by omega)

theorem monthIndicesAux_head (fuel : Nat) (a b : Int) :
    monthIndicesAux fuel a b = [] ∨ (monthIndicesAux fuel a b).head? = some a := by
  cases fuel with
  | zero => exact Or.inl rfl
  | succ fuel =>
      simp only [monthIndicesAux]
      split
      · exact Or.inr rfl
      · exact Or.inl rfl

theorem monthIndicesAux_chain (fuel : Nat) :
    ∀ a b : Int, List.Chain' (fun x y => y = x + 1) (monthIndicesAux fuel a b) := by
  induction fuel with
  | zero => intro a b; exact List.chain'_nil
  | succ fuel ih =>
      intro a b
      simp only [monthIndicesAux]
      split
      · rw [List.chain'_cons']
        refine ⟨?_, ih (a + 1) b⟩
        intro y hy
        rcases monthIndicesAux_head fuel (a + 1) b with h | h
        · rw [h] at hy; simp at hy
        · rw [h] at hy
          simp only [Option.mem_def, Option.some.injEq] at hy
          omega
      · exact List.chain'_nil

theorem monthIndices_chain (a b : Int) :
    List.Chain' (fun x y => y = x + 1) (monthIndices a b) :=
  monthIndicesAux_chain _ a b

theorem monthIndices_nodup (a b : Int) : (monthIndices a b).Nodup := by
  have hchain : List.Chain' (fun x y : Int => x < y) (monthIndices a b) :=
    (monthIndices_chain a b).imp (fun h => by omega)
  have hpw : (monthIndices a b).Pairwise (fun x y : Int => x < y) :=
    List.chain'_iff_pairwise.mp hchain
  exact hpw.imp (fun h => by omega)

theorem mem_dayRange (dim x : Int) : x ∈ dayRange dim ↔ 1 ≤ x ∧ x ≤ dim := by
  unfold dayRange
  rw [List.mem_map]
  constructor
  · rintro ⟨k, hk, rfl⟩
    rw [List.mem_range] at hk
    omega
  · intro h
    refine ⟨(x - 1).toNat, ?_, ?_⟩
    · rw [List.mem_range]
      omega
    · omega

theorem minStartDate_le_init (norm : List NormTask) :
    ∀ init : JSDate, (minStartDate init norm).key ≤ init.key := by
  induction norm with
  | nil => intro init; exact le_refl _
  | cons t ts ih =>
      intro init
      unfold minStartDate at ih ⊢
      simp only [List.foldl_cons]
      split
      · next h => exact le_trans (ih _) (le_of_lt h)
      · exact ih init

theorem minStartDate_le_mem (norm : List NormTask) :
    ∀ init : JSDate, ∀ t ∈ norm, (minStartDate init norm).key ≤ t.start.key := by
  induction norm with
  | nil => intro init t ht; simp at ht
  | cons u ts ih =>
      intro init t ht
      unfold minStartDate
      simp only [List.foldl_cons]
      rcases List.mem_cons.mp ht with rfl | ht
      · split
        · next h => exact minStartDate_le_init ts _
        · next h => exact le_trans (minStartDate_le_init ts init) (by omega)
      · exact ih _ t ht

theorem minStartDate_mem (norm : List NormTask) :
    ∀ init : JSDate, minStartDate init norm = init ∨
      ∃ t ∈ norm, minStartDate init norm = t.start := by
  induction norm with
  | nil => intro init; exact Or.inl rfl
  | cons u ts ih =>
      intro init
      unfold minStartDate
      simp only [List.foldl_cons]
      split
      · rcases ih u.start with h | ⟨t, ht, h⟩
        · exact Or.inr ⟨u, List.mem_cons_self _ _, h⟩
        · exact Or.inr ⟨t, List.mem_cons_of_mem _ ht, h⟩
      · rcases ih init with h | ⟨t, ht, h⟩
        · exact Or.inl h
        · exact Or.inr ⟨t, List.mem_cons_of_mem _ ht, h⟩

theorem maxEndDate_init_le (norm : List NormTask) :
    ∀ init : JSDate, init.key ≤ (maxEndDate init norm).key := by
  induction norm with
  | nil => intro init; exact le_refl _
  | cons t ts ih =>
      intro init
      unfold maxEndDate at ih ⊢
      simp only [List.foldl_cons]
      split
      · next h => exact le_trans (le_of_lt h) (ih _)
      · exact ih init

theorem maxEndDate_mem_le (norm : List NormTask) :
    ∀ init : JSDate, ∀ t ∈ norm, t.endD.key ≤ (maxEndDate init norm).key := by
  induction norm with
  | nil => intro init t ht; simp at ht
  | cons u ts ih =>
      intro init t ht
      unfold maxEndDate
      simp only [List.foldl_cons]
      rcases List.mem_cons.mp ht with rfl | ht
      · split
        · next h => exact maxEndDate_init_le ts _
        · next h => exact le_trans (by omega) (maxEndDate_init_le ts init)
      · exact ih _ t ht

theorem maxEndDate_mem (norm : List NormTask) :
    ∀ init : JSDate, maxEndDate init norm = init ∨
      ∃ t ∈ norm, maxEndDate init norm = t.endD := by
  induction norm with
  | nil => intro init; exact Or.inl rfl
  | cons u ts ih =>
      intro init
      unfold maxEndDate
      simp only [List.foldl_cons]
      split
      · rcases ih u.endD with h | ⟨t, ht, h⟩
        · exact Or.inr ⟨u, List.mem_cons_self _ _, h⟩
        · exact Or.inr ⟨t, List.mem_cons_of_mem _ ht, h⟩
      · rcases ih init with h | ⟨t, ht, h⟩
        · exact Or.inl h
        · exact Or.inr ⟨t, List.mem_cons_of_mem _ ht, h⟩

theorem normOne_ok_valid {dc : String} {i : Nat} {t : RawTask} {nt : NormTask}
    (hv : validRawB t = true) (h : normOne dc i t = Except.ok nt) :
    validDateB nt.start = true ∧ validDateB nt.endD = true ∧
      nt.start.key ≤ nt.endD.key := by
  unfold normOne at h
  unfold validRawB at hv
  split at h
  · exact absurd h (by simp)
  · cases hst : t.start with
    | missing => rw [hst] at h; simp at h
    | unparseable => rw [hst] at h; simp at h
    | parsed s =>
        cases hen : t.endD with
        | missing => rw [hst, hen] at h; simp at h
        | unparseable => rw [hst, hen] at h; simp at h
        | parsed e =>
            rw [hst, hen] at h hv
            simp only [Bool.and_eq_true] at hv
            simp only at h
            split at h
            · exact absurd h (by simp)
            · next hlt =>
                simp only [Except.ok.injEq] at h
                subst h
                refine ⟨hv.1, hv.2, ?_⟩
                show s.key ≤ e.key
                omega

theorem normalizeTasks_ok_cons {dc : String} {i : Nat} {t : RawTask} {ts : List RawTask}
    {norm : List NormTask} (h : normalizeTasks dc i (t :: ts) = Except.ok norm) :
    ∃ nt rest, normOne dc i t = Except.ok nt ∧
      normalizeTasks dc (i + 1) ts = Except.ok rest ∧ norm = nt :: rest := by
  unfold normalizeTasks at h
  cases h1 : normOne dc i t with
  | error e =>
      rw [h1] at h
      simp at h
  | ok nt =>
      rw [h1] at h
      cases h2 : normalizeTasks dc (i + 1) ts with
      | error e =>
          rw [h2] at h
          simp at h
      | ok rest =>
          rw [h2] at h
          simp only [Except.ok.injEq] at h
          exact ⟨nt, rest, rfl, rfl, h.symm⟩

theorem normalizeTasks_length {dc : String} {i : Nat} {ts : List RawTask}
    {norm : List NormTask} (h : normalizeTasks dc i ts = Except.ok norm) :
    norm.length = ts.length := by
  induction ts generalizing i norm with
  | nil =>
      unfold normalizeTasks at h
      simp only [Except.ok.injEq] at h
      subst h
      rfl
  | cons t ts ih =>
      obtain ⟨nt, rest, _, h2, rfl⟩ := normalizeTasks_ok_cons h
      simp [ih h2]

theorem normalizeTasks_valid {dc : String} {i : Nat} {ts : List RawTask}
    {norm : List NormTask} (hv : ∀ t ∈ ts, validRawB t = true)
    (h : normalizeTasks dc i ts = Except.ok norm) :
    ∀ nt ∈ norm, validDateB nt.start = true ∧ validDateB nt.endD = true ∧
      nt.start.key ≤ nt.endD.key := by
  induction ts generalizing i norm with
  | nil =>
      unfold normalizeTasks at h
      simp only [Except.ok.injEq] at h
      subst h
      intro nt hnt
      simp at hnt
  | cons t ts ih =>
      obtain ⟨nt0, rest, h1, h2, rfl⟩ := normalizeTasks_ok_cons h
      intro nt hnt
      rcases List.mem_cons.mp hnt with rfl | hnt
      · exact normOne_ok_valid (hv t (List.mem_cons_self _ _)) h1
      · exact ih (fun u hu => hv u (List.mem_cons_of_mem _ hu)) h2 nt hnt

theorem renderGanttAsTables_ok_iff (tasks : List RawTask) (options : RenderOptions)
    (out : RenderOutput) :
    renderGanttAsTables tasks options = Except.ok out ↔
      (options.mountFound = true ∧ tasks ≠ [] ∧
        ∃ norm, normalizeTasks options.defaultColor 0 tasks = Except.ok norm ∧
          out = { grids := partition options.shadeWeekends norm }) := by
  unfold renderGanttAsTables
  cases hm : options.mountFound with
  | false => simp
  | true =>
      cases tasks with
      | nil => simp
      | cons t ts =>
          cases hn : normalizeTasks options.defaultColor 0 (t :: ts) with
          | error e => simp
          | ok norm => simp [eq_comm]

theorem bounded_mkDay {i dd : Int} (h1 : 1 ≤ dd) (h2 : dd ≤ 31) : Bounded (mkDay i dd) := by
  unfold mkDay Bounded
  simp only
  omega

theorem monthIdx_mkDay (i dd : Int) : monthIdx (mkDay i dd) = i := by
  unfold monthIdx mkDay
  simp only
  omega

theorem mkDay_eq_self {d : JSDate} (h : validDateB d = true) :
    mkDay (monthIdx d) d.day = d := by
  have hb := validDateB_bounded h
  have hms := validDateB_ms h
  obtain ⟨h1, h2, _, _, _, _⟩ := hb
  unfold mkDay monthIdx
  cases d
  simp only [JSDate.mk.injEq, and_true, true_and] at h1 h2 hms ⊢
  omega

theorem dayFloor_eq_self {d : JSDate} (h : d.ms = 0) : dayFloor d = d := by
  unfold dayFloor
  cases d
  simp only [JSDate.mk.injEq, and_true, true_and] at h ⊢
  omega

theorem monthIdx_eq_components {d : JSDate} (hm : 0 ≤ d.month ∧ d.month < 12) {i : Int}
    (h : monthIdx d = i) : d.year = i / 12 ∧ d.month = i % 12 := by
  unfold monthIdx at h
  omega

/-- Comparison of a valid calendar date against the last millisecond of a
month: the date is at most that instant exactly when its month is at most
that month. -/
theorem le_endOfMonth_iff {d : JSDate} (hd : validDateB d = true) (i : Int) :
    d.key ≤ (endOfMonth (monthStartOfIdx i)).key ↔ monthIdx d ≤ i := by
  have hb := validDateB_bounded hd
  have hbe := bounded_endOfMonthStart i
  rw [key_le_iff hb hbe]
  have hmi : monthIdx (endOfMonth (monthStartOfIdx i)) = i := by
    unfold endOfMonth monthIdx monthStartOfIdx
    simp only
    omega
  rw [hmi]
  constructor
  · intro h
    rcases h with h | ⟨h, _⟩ <;> omega
  · intro h
    rcases lt_or_eq_of_le h with h | h
    · exact Or.inl h
    · right
      refine ⟨h, ?_⟩
      have hc := monthIdx_eq_components ⟨hb.1, hb.2.1⟩ h
      have hdle := validDateB_day_le hd
      have hE : (endOfMonth (monthStartOfIdx i)).day = daysInMonth (i / 12) (i % 12) ∧
          (endOfMonth (monthStartOfIdx i)).ms = 86399999 := by
        unfold endOfMonth monthStartOfIdx
        exact ⟨rfl, rfl⟩
      rw [hc.1, hc.2] at hdle
      have hms := validDateB_ms hd
      omega

/-- Comparison of the first millisecond of a month against a valid calendar
date: the month start is at most the date exactly when the month is at most
the month of the date. -/
theorem monthStart_le_iff {d : JSDate} (hd : validDateB d = true) (i : Int) :
    (monthStartOfIdx i).key ≤ d.key ↔ i ≤ monthIdx d := by
  have hb := validDateB_bounded hd
  have hbM := bounded_monthStartOfIdx i
  rw [key_le_iff hbM hb, monthIdx_monthStartOfIdx]
  have hM : (monthStartOfIdx i).day = 1 ∧ (monthStartOfIdx i).ms = 0 := ⟨rfl, rfl⟩
  constructor
  · intro h
    rcases h with h | ⟨h, _⟩ <;> omega
  · intro h
    rcases lt_or_eq_of_le h with h | h
    · exact Or.inl h
    · right
      refine ⟨h, ?_⟩
      obtain ⟨_, _, h3, _, h5, _⟩ := hb
      omega

theorem monthStart_le_endOfMonth (i : Int) :
    (monthStartOfIdx i).key ≤ (endOfMonth (monthStartOfIdx i)).key := by
  have h1 := daysInMonth_pos (i / 12) (i % 12)
  unfold monthStartOfIdx endOfMonth JSDate.key
  simp only
  nlinarith [h1]

/-- The clipped segment of a valid task against the month with index i
exists exactly when the month range of the task covers i. -/
theorem clampMonth_isSome_iff {t : NormTask} {i : Int}
    (hs : validDateB t.start = true) (he : validDateB t.endD = true)
    (hse : t.start.key ≤ t.endD.key) :
    (clampIntervalToMonth t.start t.endD (monthStartOfIdx i)
        (endOfMonth (monthStartOfIdx i))).isSome = true ↔
      (monthIdx t.start ≤ i ∧ i ≤ monthIdx t.endD) := by
  unfold clampIntervalToMonth
  have hsmax : (if (monthStartOfIdx i).key < t.start.key then t.start
      else monthStartOfIdx i).key = max t.start.key (monthStartOfIdx i).key := by
    split <;> omega
  have hemin : (if t.endD.key < (endOfMonth (monthStartOfIdx i)).key then t.endD
      else endOfMonth (monthStartOfIdx i)).key =
        min t.endD.key (endOfMonth (monthStartOfIdx i)).key := by
    split <;> omega
  simp only [hsmax, hemin]
  have h1 := le_endOfMonth_iff hs i
  have h2 := monthStart_le_iff he i
  have h3 := monthStart_le_endOfMonth i
  split
  · next hcond =>
      simp only [Option.isSome_some, true_iff]
      constructor
      · rw [← h1]; omega
      · rw [← h2]; omega
  · next hcond =>
      simp only [Option.isSome_none, Bool.false_eq_true, false_iff]
      intro ⟨ha, hb⟩
      rw [← h1] at ha
      rw [← h2] at hb
      omega

theorem endOfMonthStart_eq (i : Int) : endOfMonth (monthStartOfIdx i) =
    { year := i / 12, month := i % 12, day := daysInMonth (i / 12) (i % 12), ms := 86399999 } := rfl

theorem mkDay_key_le_iff (i a b : Int) : (mkDay i a).key ≤ (mkDay i b).key ↔ a ≤ b := by
  simp only [mkDay, JSDate.key]
  omega

theorem monthStart_key_le_mkDay (i dd : Int) (h : 1 ≤ dd) :
    (monthStartOfIdx i).key ≤ (mkDay i dd).key := by
  simp only [monthStartOfIdx, mkDay, JSDate.key]
  omega

theorem mkDay_key_lt_endOfMonth (i dd : Int)
    (h : dd ≤ daysInMonth (i / 12) (i % 12)) :
    (mkDay i dd).key < (endOfMonth (monthStartOfIdx i)).key := by
  rw [endOfMonthStart_eq]
  simp only [mkDay, JSDate.key]
  omega

theorem clampIntervalToMonth_eq (taskStart taskEnd monthStart monthEnd : JSDate) :
    clampIntervalToMonth taskStart taskEnd monthStart monthEnd =
      (if (if monthStart.key < taskStart.key then taskStart else monthStart).key ≤
          (if taskEnd.key < monthEnd.key then taskEnd else monthEnd).key
       then some (if monthStart.key < taskStart.key then taskStart else monthStart,
                  if taskEnd.key < monthEnd.key then taskEnd else monthEnd)
       else none) := rfl

/-- Per-day occupancy of a clipped segment: after flooring the segment
bounds to midnight, day dd of month i lies between them exactly when its
midnight lies in the original task interval. -/
theorem clampMonth_occupied_iff {t : NormTask} {i dd : Int} {s e : JSDate}
    (hs : validDateB t.start = true) (he : validDateB t.endD = true)
    (hclamp : clampIntervalToMonth t.start t.endD (monthStartOfIdx i)
        (endOfMonth (monthStartOfIdx i)) = some (s, e))
    (hdd1 : 1 ≤ dd)
    (hdd2 : dd ≤ daysInMonth (i / 12) (i % 12)) :
    ((dayFloor s).key ≤ (mkDay i dd).key ∧ (mkDay i dd).key ≤ (dayFloor e).key) ↔
      (t.start.key ≤ (mkDay i dd).key ∧ (mkDay i dd).key ≤ t.endD.key) := by
  have hmss := validDateB_ms hs
  have hmse := validDateB_ms he
  have hMle := monthStart_key_le_mkDay i dd hdd1
  have hltE := mkDay_key_lt_endOfMonth i dd hdd2
  have hkeyE := (mkDay_key_le_iff i dd (daysInMonth (i / 12) (i % 12))).mpr hdd2
  have hdfM : dayFloor (monthStartOfIdx i) = monthStartOfIdx i := rfl
  have hdfE : dayFloor (endOfMonth (monthStartOfIdx i)) =
      mkDay i (daysInMonth (i / 12) (i % 12)) := rfl
  rw [clampIntervalToMonth_eq] at hclamp
  by_cases h1 : (monthStartOfIdx i).key < t.start.key
  · by_cases h2 : t.endD.key < (endOfMonth (monthStartOfIdx i)).key
    · simp only [if_pos h1, if_pos h2] at hclamp
      split at hclamp
      · simp only [Option.some.injEq, Prod.mk.injEq] at hclamp
        obtain ⟨rfl, rfl⟩ := hclamp
        rw [dayFloor_eq_self hmss, dayFloor_eq_self hmse]
      · exact absurd hclamp (by simp)
    · simp only [if_pos h1, if_neg h2] at hclamp
      split at hclamp
      · simp only [Option.some.injEq, Prod.mk.injEq] at hclamp
        obtain ⟨rfl, rfl⟩ := hclamp
        rw [dayFloor_eq_self hmss, hdfE]
        apply and_congr Iff.rfl
        constructor
        · intro _
          omega
        · intro _
          exact hkeyE
      · exact absurd hclamp (by simp)
  · by_cases h2 : t.endD.key < (endOfMonth (monthStartOfIdx i)).key
    · simp only [if_neg h1, if_pos h2] at hclamp
      split at hclamp
      · simp only [Option.some.injEq, Prod.mk.injEq] at hclamp
        obtain ⟨rfl, rfl⟩ := hclamp
        rw [dayFloor_eq_self hmse, hdfM]
        apply and_congr ?_ Iff.rfl
        constructor
        · intro _
          omega
        · intro _
          exact hMle
      · exact absurd hclamp (by simp)
    · simp only [if_neg h1, if_neg h2] at hclamp
      split at hclamp
      · simp only [Option.some.injEq, Prod.mk.injEq] at hclamp
        obtain ⟨rfl, rfl⟩ := hclamp
        rw [hdfM, hdfE]
        apply and_congr
        · constructor
          · intro _
            omega
          · intro _
            exact hMle
        · constructor
          · intro _
            omega
          · intro _
            exact hkeyE
      · exact absurd hclamp (by simp)

theorem mkTaskRow_marks_iff (sw : Bool) (monthStart : JSDate) (dim : Int)
    (t : NormTask) (seg : JSDate × JSDate) (dd : Int) :
    RowMarksDay (mkTaskRow sw monthStart dim t seg) dd ↔
      (1 ≤ dd ∧ dd ≤ dim ∧
        (dayFloor seg.1).key ≤ (JSDate.mk monthStart.year monthStart.month dd 0).key ∧
        (JSDate.mk monthStart.year monthStart.month dd 0).key ≤ (dayFloor seg.2).key) := by
  unfold RowMarksDay mkTaskRow
  simp only
  constructor
  · rintro ⟨c, hc, hnum, hocc⟩
    rw [List.mem_map] at hc
    obtain ⟨d0, hd0, rfl⟩ := hc
    simp only at hnum hocc
    subst hnum
    rw [mem_dayRange] at hd0
    simp only [Bool.and_eq_true, decide_eq_true_eq] at hocc
    exact ⟨hd0.1, hd0.2, hocc.1, hocc.2⟩
  · rintro ⟨h1, h2, h3, h4⟩
    refine ⟨_, List.mem_map_of_mem _ ((mem_dayRange dim dd).mpr ⟨h1, h2⟩), rfl, ?_⟩
    simp only [Bool.and_eq_true, decide_eq_true_eq]
    exact ⟨h3, h4⟩

theorem taskRowForMonth_isSome (sw : Bool) (mS mE : JSDate) (dim : Int) (t : NormTask) :
    (taskRowForMonth sw mS mE dim t).isSome =
      (clampIntervalToMonth t.start t.endD mS mE).isSome := by
  unfold taskRowForMonth
  cases clampIntervalToMonth t.start t.endD mS mE <;> rfl

theorem taskRowForMonth_none_of_clamp_none {sw : Bool} {mS mE : JSDate} {dim : Int}
    {t : NormTask} (h : clampIntervalToMonth t.start t.endD mS mE = none) :
    taskRowForMonth sw mS mE dim t = none := by
  unfold taskRowForMonth
  rw [h]
  rfl

theorem startOfMonth_monthStartOfIdx (i : Int) :
    startOfMonth (monthStartOfIdx i) = monthStartOfIdx i := rfl

theorem buildMonthGrid_eq_some {sw : Bool} {norm : List NormTask} {i : Int} {g : MonthGrid}
    (h : buildMonthGrid sw norm (monthStartOfIdx i) = some g) :
    g.year = i / 12 ∧ g.month = i % 12 ∧
      g.dayCount = daysInMonth (i / 12) (i % 12) ∧
      g.rows = norm.filterMap (taskRowForMonth sw (monthStartOfIdx i)
        (endOfMonth (monthStartOfIdx i)) (daysInMonth (i / 12) (i % 12))) ∧
      0 < g.rows.length := by
  unfold buildMonthGrid at h
  rw [startOfMonth_monthStartOfIdx] at h
  simp only at h
  split at h
  · next hpos =>
      simp only [Option.some.injEq] at h
      subst h
      exact ⟨rfl, rfl, rfl, rfl, hpos⟩
  · exact absurd h (by simp)

theorem monthStartOfIdx_year (i : Int) : (monthStartOfIdx i).year = i / 12 := rfl

theorem monthStartOfIdx_month (i : Int) : (monthStartOfIdx i).month = i % 12 := rfl

theorem buildMonthGrid_none_iff {sw : Bool} {norm : List NormTask} {i : Int} :
    buildMonthGrid sw norm (monthStartOfIdx i) = none ↔
      norm.filterMap (taskRowForMonth sw (monthStartOfIdx i)
        (endOfMonth (monthStartOfIdx i)) (daysInMonth (i / 12) (i % 12))) = [] := by
  unfold buildMonthGrid
  rw [startOfMonth_monthStartOfIdx]
  simp only [monthStartOfIdx_year, monthStartOfIdx_month]
  split
  · next hpos =>
      simp only [reduceCtorEq, false_iff]
      intro hnil
      rw [hnil] at hpos
      simp at hpos
  · next hpos =>
      simp only [true_iff]
      have hz : (norm.filterMap (taskRowForMonth sw (monthStartOfIdx i)
          (endOfMonth (monthStartOfIdx i)) (daysInMonth (i / 12) (i % 12)))).length = 0 := by
        omega
      exact List.length_eq_zero.mp hz

theorem forall2_filterMap {α β : Type} (f : α → Option β) (l : List α) :
    List.Forall₂ (fun b a => f a = some b) (l.filterMap f)
      (l.filter (fun a => (f a).isSome)) := by
  induction l with
  | nil => exact List.Forall₂.nil
  | cons x xs ih =>
      cases hf : f x with
      | none =>
          simp only [List.filterMap_cons, hf, List.filter_cons, Option.isSome_none,
            Bool.false_eq_true, if_false]
          exact ih
      | some b =>
          simp only [List.filterMap_cons, hf, List.filter_cons, Option.isSome_some, if_true]
          exact List.Forall₂.cons hf ih

theorem taskRow_some_at {sw : Bool} {t : NormTask} {i : Int}
    (hs : validDateB t.start = true) (he : validDateB t.endD = true)
    (hse : t.start.key ≤ t.endD.key)
    (hcov : monthIdx t.start ≤ i ∧ i ≤ monthIdx t.endD) :
    ∃ s e, clampIntervalToMonth t.start t.endD (monthStartOfIdx i)
        (endOfMonth (monthStartOfIdx i)) = some (s, e) ∧
      taskRowForMonth sw (monthStartOfIdx i) (endOfMonth (monthStartOfIdx i))
          (daysInMonth (i / 12) (i % 12)) t =
        some (mkTaskRow sw (monthStartOfIdx i) (daysInMonth (i / 12) (i % 12)) t (s, e)) := by
  have hsome := (clampMonth_isSome_iff hs he hse).mpr hcov
  obtain ⟨⟨s, e⟩, hse2⟩ := Option.isSome_iff_exists.mp hsome
  refine ⟨s, e, hse2, ?_⟩
  unfold taskRowForMonth
  rw [hse2]
  rfl

theorem mkTaskRow_marks_day_iff {sw : Bool} {t : NormTask} {i dd : Int} {s e : JSDate}
    (hs : validDateB t.start = true) (he : validDateB t.endD = true)
    (hclamp : clampIntervalToMonth t.start t.endD (monthStartOfIdx i)
        (endOfMonth (monthStartOfIdx i)) = some (s, e)) :
    RowMarksDay (mkTaskRow sw (monthStartOfIdx i) (daysInMonth (i / 12) (i % 12)) t (s, e)) dd ↔
      (1 ≤ dd ∧ dd ≤ daysInMonth (i / 12) (i % 12) ∧
        t.start.key ≤ (mkDay i dd).key ∧ (mkDay i dd).key ≤ t.endD.key) := by
  rw [mkTaskRow_marks_iff]
  simp only [monthStartOfIdx_year, monthStartOfIdx_month]
  have hmk : (JSDate.mk (i / 12) (i % 12) dd 0) = mkDay i dd := rfl
  rw [hmk]
  constructor
  · rintro ⟨h1, h2, h3, h4⟩
    have hocc := (clampMonth_occupied_iff hs he hclamp h1 h2).mp ⟨h3, h4⟩
    exact ⟨h1, h2, hocc.1, hocc.2⟩
  · rintro ⟨h1, h2, h3, h4⟩
    have hocc := (clampMonth_occupied_iff hs he hclamp h1 h2).mpr ⟨h3, h4⟩
    exact ⟨h1, h2, hocc.1, hocc.2⟩

theorem taskRowForMonth_marks_iff {sw : Bool} {t : NormTask} {i : Int} {d : JSDate}
    (hs : validDateB t.start = true) (he : validDateB t.endD = true)
    (hse : t.start.key ≤ t.endD.key)
    (hd : validDateB d = true) (hiD : monthIdx d = i) :
    (∃ row, taskRowForMonth sw (monthStartOfIdx i) (endOfMonth (monthStartOfIdx i))
        (daysInMonth (i / 12) (i % 12)) t = some row ∧ RowMarksDay row d.day) ↔
      (t.start.key ≤ d.key ∧ d.key ≤ t.endD.key) := by
  have hmkd : mkDay i d.day = d := by
    rw [← hiD]
    exact mkDay_eq_self hd
  constructor
  · rintro ⟨row, hrow, hmarks⟩
    unfold taskRowForMonth at hrow
    rw [Option.map_eq_some'] at hrow
    obtain ⟨⟨s, e⟩, hclamp, rfl⟩ := hrow
    have := (mkTaskRow_marks_day_iff hs he hclamp).mp hmarks
    rw [hmkd] at this
    exact ⟨this.2.2.1, this.2.2.2⟩
  · rintro ⟨h1, h2⟩
    have hbs := validDateB_bounded hs
    have hbe := validDateB_bounded he
    have hbd := validDateB_bounded hd
    have hcov : monthIdx t.start ≤ i ∧ i ≤ monthIdx t.endD := by
      constructor
      · rw [← hiD]
        exact monthIdx_le_of_key_le hbs hbd h1
      · rw [← hiD]
        exact monthIdx_le_of_key_le hbd hbe h2
    obtain ⟨s, e, hclamp, hrow⟩ := @taskRow_some_at sw t i hs he hse hcov
    refine ⟨_, hrow, ?_⟩
    rw [mkTaskRow_marks_day_iff hs he hclamp, hmkd]
    have hcm := monthIdx_eq_components ⟨hbd.1, hbd.2.1⟩ hiD
    have hdle := validDateB_day_le hd
    rw [hcm.1, hcm.2] at hdle
    exact ⟨hbd.2.2.1, hdle, h1, h2⟩

theorem monthIdx_startOfMonth (d : JSDate) : monthIdx (startOfMonth d) = monthIdx d := rfl

theorem partition_eq (sw : Bool) (t0 : NormTask) (rest : List NormTask) :
    partition sw (t0 :: rest) =
      (monthIndices (monthIdx (startOfMonth (minStartDate t0.start (t0 :: rest))))
        (monthIdx (startOfMonth (maxEndDate t0.endD (t0 :: rest))))).filterMap
        (fun i => buildMonthGrid sw (t0 :: rest) (monthStartOfIdx i)) := rfl

theorem render_ok_grids {tasks : List RawTask} {options : RenderOptions} {out : RenderOutput}
    (hrun : renderGanttAsTables tasks options = Except.ok out)
    {norm : List NormTask}
    (hnorm : normalizeTasks options.defaultColor 0 tasks = Except.ok norm) :
    out.grids = partition options.shadeWeekends norm ∧ norm ≠ [] := by
  rw [renderGanttAsTables_ok_iff] at hrun
  obtain ⟨hm, hne, norm2, hn2, rfl⟩ := hrun
  rw [hnorm] at hn2
  simp only [Except.ok.injEq] at hn2
  subst hn2
  refine ⟨rfl, ?_⟩
  intro h
  subst h
  have hlen := normalizeTasks_length hnorm
  exact hne (List.length_eq_zero.mp hlen.symm)

theorem buildMonthGrid_some_of_rows_ne {sw : Bool} {norm : List NormTask} {i : Int}
    (h : norm.filterMap (taskRowForMonth sw (monthStartOfIdx i)
      (endOfMonth (monthStartOfIdx i)) (daysInMonth (i / 12) (i % 12))) ≠ []) :
    ∃ g, buildMonthGrid sw norm (monthStartOfIdx i) = some g := by
  cases hb : buildMonthGrid sw norm (monthStartOfIdx i) with
  | some g => exact ⟨g, rfl⟩
  | none => exact absurd (buildMonthGrid_none_iff.mp hb) h

theorem minStart_monthIdx_le {norm : List NormTask} {t0 t : NormTask}
    (hvalid : ∀ nt ∈ norm, validDateB nt.start = true ∧ validDateB nt.endD = true ∧
      nt.start.key ≤ nt.endD.key)
    (h0 : t0 ∈ norm) (ht : t ∈ norm) :
    monthIdx (minStartDate t0.start norm) ≤ monthIdx t.start := by
  have hkey := minStartDate_le_mem norm t0.start t ht
  have hvmin : validDateB (minStartDate t0.start norm) = true := by
    rcases minStartDate_mem norm t0.start with h | ⟨u, hu, h⟩
    · rw [h]
      exact (hvalid t0 h0).1
    · rw [h]
      exact (hvalid u hu).1
  exact monthIdx_le_of_key_le (validDateB_bounded hvmin)
    (validDateB_bounded (hvalid t ht).1) hkey

theorem maxEnd_monthIdx_ge {norm : List NormTask} {t0 t : NormTask}
    (hvalid : ∀ nt ∈ norm, validDateB nt.start = true ∧ validDateB nt.endD = true ∧
      nt.start.key ≤ nt.endD.key)
    (h0 : t0 ∈ norm) (ht : t ∈ norm) :
    monthIdx t.endD ≤ monthIdx (maxEndDate t0.endD norm) := by
  have hkey := maxEndDate_mem_le norm t0.endD t ht
  have hvmax : validDateB (maxEndDate t0.endD norm) = true := by
    rcases maxEndDate_mem norm t0.endD with h | ⟨u, hu, h⟩
    · rw [h]
      exact (hvalid t0 h0).2.1
    · rw [h]
      exact (hvalid u hu).2.1
  exact monthIdx_le_of_key_le (validDateB_bounded (hvalid t ht).2.1)
    (validDateB_bounded hvmax) hkey

/-- C1: for a validated task list, a valid calendar day d is marked occupied
for task t in some emitted month grid exactly when d lies in the inclusive
interval of t, and at most one emitted grid marks it (no day outside the
range is marked, no day is marked in two grids). -/
theorem renderGantt_occupied_union
    (tasks : List RawTask) (options : RenderOptions) (out : RenderOutput)
    (norm : List NormTask) (t : NormTask) (d : JSDate)
    (hrun : renderGanttAsTables tasks options = Except.ok out)
    (hval : ∀ rt ∈ tasks, validRawB rt = true)
    (hnorm : normalizeTasks options.defaultColor 0 tasks = Except.ok norm)
    (ht : t ∈ norm) (hd : validDateB d = true) :
    ((t.start.key ≤ d.key ∧ d.key ≤ t.endD.key) ↔
      ∃ g ∈ out.grids, GridMarksDayFor options.shadeWeekends t d g) ∧
    (∀ g1 ∈ out.grids, ∀ g2 ∈ out.grids,
      GridMarksDayFor options.shadeWeekends t d g1 →
      GridMarksDayFor options.shadeWeekends t d g2 → g1 = g2) := by
  obtain ⟨hgrids, hne⟩ := render_ok_grids hrun hnorm
  have hvalid := normalizeTasks_valid hval hnorm
  obtain ⟨hs, he, hse⟩ := hvalid t ht
  have hbd := validDateB_bounded hd
  have hmi : monthIdx d = d.year * 12 + d.month := rfl
  cases norm with
  | nil => exact absurd rfl hne
  | cons t0 rest =>
  constructor
  · constructor
    · rintro ⟨h1, h2⟩
      have hcov : monthIdx t.start ≤ monthIdx d ∧ monthIdx d ≤ monthIdx t.endD :=
        ⟨monthIdx_le_of_key_le (validDateB_bounded hs) hbd h1,
         monthIdx_le_of_key_le hbd (validDateB_bounded he) h2⟩
      have hfi : monthIdx (startOfMonth (minStartDate t0.start (t0 :: rest))) ≤ monthIdx d := by
        rw [monthIdx_startOfMonth]
        exact le_trans (minStart_monthIdx_le hvalid (List.mem_cons_self _ _) ht) hcov.1
      have hli : monthIdx d ≤ monthIdx (startOfMonth (maxEndDate t0.endD (t0 :: rest))) := by
        rw [monthIdx_startOfMonth]
        exact le_trans hcov.2 (maxEnd_monthIdx_ge hvalid (List.mem_cons_self _ _) ht)
      obtain ⟨s, e, hclamp, hrow⟩ :=
        @taskRow_some_at options.shadeWeekends t (monthIdx d) hs he hse hcov
      have hrmem : mkTaskRow options.shadeWeekends (monthStartOfIdx (monthIdx d))
          (daysInMonth (monthIdx d / 12) (monthIdx d % 12)) t (s, e) ∈
            (t0 :: rest).filterMap (taskRowForMonth options.shadeWeekends
              (monthStartOfIdx (monthIdx d)) (endOfMonth (monthStartOfIdx (monthIdx d)))
              (daysInMonth (monthIdx d / 12) (monthIdx d % 12))) :=
        List.mem_filterMap.mpr ⟨t, ht, hrow⟩
      have hnonempty : (t0 :: rest).filterMap (taskRowForMonth options.shadeWeekends
          (monthStartOfIdx (monthIdx d)) (endOfMonth (monthStartOfIdx (monthIdx d)))
          (daysInMonth (monthIdx d / 12) (monthIdx d % 12))) ≠ [] := by
        intro hnil
        rw [hnil] at hrmem
        simp at hrmem
      obtain ⟨g, hb⟩ := buildMonthGrid_some_of_rows_ne hnonempty
      obtain ⟨hy, hmn, hdc, hrows, _⟩ := buildMonthGrid_eq_some hb
      have hcm := monthIdx_eq_components ⟨hbd.1, hbd.2.1⟩ (rfl : monthIdx d = monthIdx d)
      refine ⟨g, ?_, ?_, ?_, ?_⟩
      · rw [hgrids, partition_eq]
        exact List.mem_filterMap.mpr
          ⟨monthIdx d, (mem_monthIndices _ _ _).mpr ⟨hfi, hli⟩, hb⟩
      · rw [hy, ← hcm.1]
      · rw [hmn, ← hcm.2]
      · refine ⟨_, hrow, ?_, ?_⟩
        · rw [hrows]
          exact hrmem
        · rw [mkTaskRow_marks_day_iff hs he hclamp, mkDay_eq_self hd]
          have hdle := validDateB_day_le hd
          rw [hcm.1, hcm.2] at hdle
          exact ⟨hbd.2.2.1, hdle, h1, h2⟩
    · rintro ⟨g, hg, hy, hmn, row, hrow, hrmem, hmarks⟩
      exact (taskRowForMonth_marks_iff hs he hse hd rfl).mp ⟨row, hrow, hmarks⟩
  · intro g1 hg1 g2 hg2 hm1 hm2
    rw [hgrids, partition_eq, List.mem_filterMap] at hg1 hg2
    obtain ⟨i1, _, hb1⟩ := hg1
    obtain ⟨i2, _, hb2⟩ := hg2
    obtain ⟨hy1, hmn1, _, _, _⟩ := buildMonthGrid_eq_some hb1
    obtain ⟨hy2, hmn2, _, _, _⟩ := buildMonthGrid_eq_some hb2
    have hi1 : i1 = monthIdx d := by
      have e1 := hm1.1
      have e2 := hm1.2.1
      omega
    have hi2 : i2 = monthIdx d := by
      have e1 := hm2.1
      have e2 := hm2.2.1
      omega
    rw [hi1] at hb1
    rw [hi2] at hb2
    rw [hb1] at hb2
    exact (Option.some.injEq _ _).mp hb2

/-- C5: with a resolved container, the empty task sequence is rejected with
the empty-input error rather than yielding any grid sequence. -/
theorem renderGantt_empty_error (options : RenderOptions)
    (hm : options.mountFound = true) :
    renderGanttAsTables [] options = Except.error "Aucune tâche fournie." := by
  unfold renderGanttAsTables
  rw [hm]
  rfl

theorem renderGantt_empty_error_witness :
    sampleOptions.mountFound = true ∧
      renderGanttAsTables [] sampleOptions = Except.error "Aucune tâche fournie." :=
  ⟨rfl, renderGantt_empty_error sampleOptions rfl⟩

/-- C10: an unresolved container (selector with no match, or a null element)
makes the call fail with the container error before any task check, for every
task list, so even empty or malformed task lists get this error and no output
is produced. -/
theorem renderGantt_container_error (tasks : List RawTask) (options : RenderOptions)
    (hm : options.mountFound = false) :
    renderGanttAsTables tasks options = Except.error "Container introuvable." := by
  unfold renderGanttAsTables
  rw [hm]
  rfl

theorem renderGantt_container_error_witness :
    ((⟨false, true, "#7aa7ff"⟩ : RenderOptions).mountFound = false) ∧
    renderGanttAsTables [] ⟨false, true, "#7aa7ff"⟩ =
      Except.error "Container introuvable." ∧
    renderGanttAsTables [⟨none, DateField.missing, DateField.missing, none⟩]
        ⟨false, true, "#7aa7ff"⟩ =
      Except.error "Container introuvable." :=
  ⟨rfl, renderGantt_container_error [] _ rfl,
    renderGantt_container_error [⟨none, DateField.missing, DateField.missing, none⟩] _ rfl⟩

/-- C9: the computation is a pure function of tasks and options: two
successful calls on the same input produce structurally identical grid
sequences (same months, rows, occupancy and weekend flags in order). -/
theorem renderGantt_deterministic (tasks : List RawTask) (options : RenderOptions)
    (out1 out2 : RenderOutput)
    (h1 : renderGanttAsTables tasks options = Except.ok out1)
    (h2 : renderGanttAsTables tasks options = Except.ok out2) : out1 = out2 := by
  rw [h1] at h2
  exact Except.ok.inj h2

theorem renderGantt_deterministic_witness :
    renderGanttAsTables sampleTasks sampleOptions = Except.ok sampleOut ∧
      sampleOut = sampleOut :=
  ⟨rfl, renderGantt_deterministic sampleTasks sampleOptions sampleOut sampleOut rfl rfl⟩

/-- C6: every emitted month grid has at least one task row, and a month
whose row list is empty yields no grid at all. -/
theorem renderGantt_no_empty_grids
    (tasks : List RawTask) (options : RenderOptions) (out : RenderOutput)
    (norm : List NormTask)
    (hrun : renderGanttAsTables tasks options = Except.ok out)
    (hnorm : normalizeTasks options.defaultColor 0 tasks = Except.ok norm) :
    (∀ g ∈ out.grids, 0 < g.rows.length) ∧
    (∀ i : Int, norm.filterMap (taskRowForMonth options.shadeWeekends (monthStartOfIdx i)
        (endOfMonth (monthStartOfIdx i)) (daysInMonth (i / 12) (i % 12))) = [] →
      (buildMonthGrid options.shadeWeekends norm (monthStartOfIdx i) = none ∧
        ∀ g ∈ out.grids, ¬(g.year = i / 12 ∧ g.month = i % 12))) := by
  obtain ⟨hgrids, hne⟩ := render_ok_grids hrun hnorm
  cases norm with
  | nil => exact absurd rfl hne
  | cons t0 rest =>
  constructor
  · intro g hg
    rw [hgrids, partition_eq, List.mem_filterMap] at hg
    obtain ⟨i, _, hb⟩ := hg
    exact (buildMonthGrid_eq_some hb).2.2.2.2
  · intro i hnil
    have hnone := buildMonthGrid_none_iff.mpr hnil
    refine ⟨hnone, ?_⟩
    intro g hg ⟨hy, hmn⟩
    rw [hgrids, partition_eq, List.mem_filterMap] at hg
    obtain ⟨i2, _, hb⟩ := hg
    obtain ⟨hy2, hmn2, _, _, _⟩ := buildMonthGrid_eq_some hb
    have hi : i2 = i := by omega
    rw [hi, hnone] at hb
    exact absurd hb (by simp)

theorem renderGantt_no_empty_grids_witness :
    renderGanttAsTables sampleTasks sampleOptions = Except.ok sampleOut ∧
    normalizeTasks sampleOptions.defaultColor 0 sampleTasks = Except.ok sampleNorm ∧
    ((∀ g ∈ sampleOut.grids, 0 < g.rows.length) ∧
      (∀ i : Int, sampleNorm.filterMap (taskRowForMonth sampleOptions.shadeWeekends
          (monthStartOfIdx i) (endOfMonth (monthStartOfIdx i))
          (daysInMonth (i / 12) (i % 12))) = [] →
        (buildMonthGrid sampleOptions.shadeWeekends sampleNorm (monthStartOfIdx i) = none ∧
          ∀ g ∈ sampleOut.grids, ¬(g.year = i / 12 ∧ g.month = i % 12)))) :=
  ⟨rfl, rfl, renderGantt_no_empty_grids sampleTasks sampleOptions sampleOut sampleNorm rfl rfl⟩

/-- C7: the rows of every emitted grid are generated from the normalized
tasks in their original order: the row list is in order-preserving
one-to-one correspondence with the sublist of tasks whose interval
intersects the grid month (clipped segment exists), the k-th row being the
row built for the k-th such task. -/
theorem renderGantt_rows_stable
    (tasks : List RawTask) (options : RenderOptions) (out : RenderOutput)
    (norm : List NormTask)
    (hrun : renderGanttAsTables tasks options = Except.ok out)
    (hnorm : normalizeTasks options.defaultColor 0 tasks = Except.ok norm) :
    ∀ g ∈ out.grids, ∃ i : Int,
      g.year = i / 12 ∧ g.month = i % 12 ∧
      g.rows = norm.filterMap (taskRowForMonth options.shadeWeekends (monthStartOfIdx i)
        (endOfMonth (monthStartOfIdx i)) (daysInMonth (i / 12) (i % 12))) ∧
      List.Forall₂ (fun row t => taskRowForMonth options.shadeWeekends (monthStartOfIdx i)
          (endOfMonth (monthStartOfIdx i)) (daysInMonth (i / 12) (i % 12)) t = some row)
        g.rows
        (norm.filter (fun t => (clampIntervalToMonth t.start t.endD (monthStartOfIdx i)
          (endOfMonth (monthStartOfIdx i))).isSome)) := by
  obtain ⟨hgrids, hne⟩ := render_ok_grids hrun hnorm
  cases norm with
  | nil => exact absurd rfl hne
  | cons t0 rest =>
  intro g hg
  rw [hgrids, partition_eq, List.mem_filterMap] at hg
  obtain ⟨i, _, hb⟩ := hg
  obtain ⟨hy, hmn, _, hrows, _⟩ := buildMonthGrid_eq_some hb
  refine ⟨i, hy, hmn, hrows, ?_⟩
  rw [hrows]
  have hfil : (t0 :: rest).filter (fun t => (clampIntervalToMonth t.start t.endD
        (monthStartOfIdx i) (endOfMonth (monthStartOfIdx i))).isSome) =
      (t0 :: rest).filter (fun t => (taskRowForMonth options.shadeWeekends (monthStartOfIdx i)
        (endOfMonth (monthStartOfIdx i)) (daysInMonth (i / 12) (i % 12)) t).isSome) :=
    List.filter_congr (fun t _ => (taskRowForMonth_isSome _ _ _ _ t).symm)
  rw [hfil]
  exact forall2_filterMap _ (t0 :: rest)

theorem renderGantt_rows_stable_witness :
    renderGanttAsTables sampleTasks sampleOptions = Except.ok sampleOut ∧
    normalizeTasks sampleOptions.defaultColor 0 sampleTasks = Except.ok sampleNorm ∧
    (∀ g ∈ sampleOut.grids, ∃ i : Int,
      g.year = i / 12 ∧ g.month = i % 12 ∧
      g.rows = sampleNorm.filterMap (taskRowForMonth sampleOptions.shadeWeekends
        (monthStartOfIdx i) (endOfMonth (monthStartOfIdx i)) (daysInMonth (i / 12) (i % 12))) ∧
      List.Forall₂ (fun row t => taskRowForMonth sampleOptions.shadeWeekends (monthStartOfIdx i)
          (endOfMonth (monthStartOfIdx i)) (daysInMonth (i / 12) (i % 12)) t = some row)
        g.rows
        (sampleNorm.filter (fun t => (clampIntervalToMonth t.start t.endD (monthStartOfIdx i)
          (endOfMonth (monthStartOfIdx i))).isSome))) :=
  ⟨rfl, rfl, renderGantt_rows_stable sampleTasks sampleOptions sampleOut sampleNorm rfl rfl⟩

/-- C4: the months considered are exactly those from the month of the
minimum task start to the month of the maximum task end inclusive, visited
once each, in chronological order, stepping one calendar month (so months in
the middle of a long task are included); the output grids are produced from
exactly this month list. -/
theorem renderGantt_month_range
    (tasks : List RawTask) (options : RenderOptions) (out : RenderOutput)
    (norm : List NormTask) (t0 : NormTask) (rest : List NormTask)
    (hrun : renderGanttAsTables tasks options = Except.ok out)
    (hnorm : normalizeTasks options.defaultColor 0 tasks = Except.ok norm)
    (hsh : norm = t0 :: rest) :
    (∀ nt ∈ norm, (minStartDate t0.start norm).key ≤ nt.start.key ∧
        nt.endD.key ≤ (maxEndDate t0.endD norm).key) ∧
    (minStartDate t0.start norm = t0.start ∨
      ∃ nt ∈ norm, minStartDate t0.start norm = nt.start) ∧
    (maxEndDate t0.endD norm = t0.endD ∨
      ∃ nt ∈ norm, maxEndDate t0.endD norm = nt.endD) ∧
    (∀ j : Int, j ∈ monthIndices (monthIdx (startOfMonth (minStartDate t0.start norm)))
        (monthIdx (startOfMonth (maxEndDate t0.endD norm))) ↔
      (monthIdx (minStartDate t0.start norm) ≤ j ∧
        j ≤ monthIdx (maxEndDate t0.endD norm))) ∧
    (monthIndices (monthIdx (startOfMonth (minStartDate t0.start norm)))
        (monthIdx (startOfMonth (maxEndDate t0.endD norm)))).Nodup ∧
    List.Chain' (fun a b => b = a + 1)
      (monthIndices (monthIdx (startOfMonth (minStartDate t0.start norm)))
        (monthIdx (startOfMonth (maxEndDate t0.endD norm)))) ∧
    out.grids = (monthIndices (monthIdx (startOfMonth (minStartDate t0.start norm)))
        (monthIdx (startOfMonth (maxEndDate t0.endD norm)))).filterMap
      (fun i => buildMonthGrid options.shadeWeekends norm (monthStartOfIdx i)) := by
  obtain ⟨hgrids, _⟩ := render_ok_grids hrun hnorm
  subst hsh
  refine ⟨?_, ?_, ?_, ?_, ?_, ?_, ?_⟩
  · intro nt hnt
    exact ⟨minStartDate_le_mem _ _ nt hnt, maxEndDate_mem_le _ _ nt hnt⟩
  · exact minStartDate_mem _ _
  · exact maxEndDate_mem _ _
  · intro j
    rw [mem_monthIndices, monthIdx_startOfMonth, monthIdx_startOfMonth]
  · exact monthIndices_nodup _ _
  · exact monthIndices_chain _ _
  · rw [hgrids, partition_eq]

theorem renderGantt_month_range_witness :
    renderGanttAsTables sampleTasks sampleOptions = Except.ok sampleOut ∧
    normalizeTasks sampleOptions.defaultColor 0 sampleTasks = Except.ok sampleNorm ∧
    sampleNorm = (⟨"Etude", ⟨2025, 8, 3, 0⟩, ⟨2025, 8, 10, 0⟩, "#7aa7ff"⟩ : NormTask) ::
      [⟨"Fabrication", ⟨2025, 8, 15, 0⟩, ⟨2025, 9, 7, 0⟩, "#7aa7ff"⟩] ∧
    (∀ j : Int, j ∈ monthIndices
        (monthIdx (startOfMonth (minStartDate (⟨2025, 8, 3, 0⟩ : JSDate) sampleNorm)))
        (monthIdx (startOfMonth (maxEndDate (⟨2025, 8, 10, 0⟩ : JSDate) sampleNorm))) ↔
      (monthIdx (minStartDate (⟨2025, 8, 3, 0⟩ : JSDate) sampleNorm) ≤ j ∧
        j ≤ monthIdx (maxEndDate (⟨2025, 8, 10, 0⟩ : JSDate) sampleNorm))) :=
  ⟨rfl, rfl, rfl,
    (renderGantt_month_range sampleTasks sampleOptions sampleOut sampleNorm
      ⟨"Etude", ⟨2025, 8, 3, 0⟩, ⟨2025, 8, 10, 0⟩, "#7aa7ff"⟩
      [⟨"Fabrication", ⟨2025, 8, 15, 0⟩, ⟨2025, 9, 7, 0⟩, "#7aa7ff"⟩]
      rfl rfl rfl).2.2.2.1⟩

theorem dayFloor_key (b : JSDate) : (dayFloor b).key = b.key - b.ms := by
  simp [dayFloor, JSDate.key]

theorem key_le_iff_dayFloor {a b : JSDate} (ha : a.ms = 0)
    (hb : 0 ≤ b.ms ∧ b.ms < 86400000) :
    a.key ≤ b.key ↔ a.key ≤ (dayFloor b).key := by
  rw [dayFloor_key]
  unfold JSDate.key
  omega

/-- C3: against any month window, the clipped segment bounds are the
max of the starts and the min of the ends, the clamp succeeds exactly when
the floored (calendar-day) comparison segStart <= segEnd holds, and a task
whose clamp fails contributes no row to that month. -/
theorem clampIntervalToMonth_c3 (t : NormTask) (m : JSDate) (sw : Bool)
    (hs : validDateB t.start = true) (he : validDateB t.endD = true) :
    ((if (startOfMonth m).key < t.start.key then t.start else startOfMonth m).key =
        max t.start.key (startOfMonth m).key ∧
      (if t.endD.key < (endOfMonth m).key then t.endD else endOfMonth m).key =
        min t.endD.key (endOfMonth m).key) ∧
    clampIntervalToMonth t.start t.endD (startOfMonth m) (endOfMonth m) =
      (if (dayFloor (if (startOfMonth m).key < t.start.key then t.start
            else startOfMonth m)).key ≤
          (dayFloor (if t.endD.key < (endOfMonth m).key then t.endD
            else endOfMonth m)).key
       then some (if (startOfMonth m).key < t.start.key then t.start else startOfMonth m,
                  if t.endD.key < (endOfMonth m).key then t.endD else endOfMonth m)
       else none) ∧
    (clampIntervalToMonth t.start t.endD (startOfMonth m) (endOfMonth m) = none →
      taskRowForMonth sw (startOfMonth m) (endOfMonth m)
        (daysInMonth (startOfMonth m).year (startOfMonth m).month) t = none) := by
  have hsms : (if (startOfMonth m).key < t.start.key then t.start
      else startOfMonth m).ms = 0 := by
    split
    · exact validDateB_ms hs
    · rfl
  have hems : 0 ≤ (if t.endD.key < (endOfMonth m).key then t.endD
        else endOfMonth m).ms ∧
      (if t.endD.key < (endOfMonth m).key then t.endD else endOfMonth m).ms < 86400000 := by
    split
    · have := validDateB_ms he
      omega
    · constructor
      · show (0 : Int) ≤ 86399999
        decide
      · show (86399999 : Int) < 86400000
        decide
  refine ⟨⟨?_, ?_⟩, ?_, ?_⟩
  · split <;> omega
  · split <;> omega
  · rw [clampIntervalToMonth_eq]
    apply if_congr _ rfl rfl
    rw [dayFloor_eq_self hsms]
    exact key_le_iff_dayFloor hsms hems
  · intro h
    exact taskRowForMonth_none_of_clamp_none h

theorem clampIntervalToMonth_c3_witness :
    validDateB (⟨2025, 8, 15, 0⟩ : JSDate) = true ∧
    validDateB (⟨2025, 9, 7, 0⟩ : JSDate) = true ∧
    ((((if (startOfMonth ⟨2025, 9, 20, 0⟩).key <
          (⟨"Fabrication", ⟨2025, 8, 15, 0⟩, ⟨2025, 9, 7, 0⟩, "#7aa7ff"⟩ : NormTask).start.key
        then (⟨"Fabrication", ⟨2025, 8, 15, 0⟩, ⟨2025, 9, 7, 0⟩, "#7aa7ff"⟩ : NormTask).start
        else startOfMonth ⟨2025, 9, 20, 0⟩).key =
          max (⟨"Fabrication", ⟨2025, 8, 15, 0⟩, ⟨2025, 9, 7, 0⟩, "#7aa7ff"⟩ : NormTask).start.key
            (startOfMonth ⟨2025, 9, 20, 0⟩).key ∧
        (if (⟨"Fabrication", ⟨2025, 8, 15, 0⟩, ⟨2025, 9, 7, 0⟩, "#7aa7ff"⟩ : NormTask).endD.key <
            (endOfMonth ⟨2025, 9, 20, 0⟩).key
          then (⟨"Fabrication", ⟨2025, 8, 15, 0⟩, ⟨2025, 9, 7, 0⟩, "#7aa7ff"⟩ : NormTask).endD
          else endOfMonth ⟨2025, 9, 20, 0⟩).key =
          min (⟨"Fabrication", ⟨2025, 8, 15, 0⟩, ⟨2025, 9, 7, 0⟩, "#7aa7ff"⟩ : NormTask).endD.key
            (endOfMonth ⟨2025, 9, 20, 0⟩).key) ∧
      clampIntervalToMonth
          (⟨"Fabrication", ⟨2025, 8, 15, 0⟩, ⟨2025, 9, 7, 0⟩, "#7aa7ff"⟩ : NormTask).start
          (⟨"Fabrication", ⟨2025, 8, 15, 0⟩, ⟨2025, 9, 7, 0⟩, "#7aa7ff"⟩ : NormTask).endD
          (startOfMonth ⟨2025, 9, 20, 0⟩) (endOfMonth ⟨2025, 9, 20, 0⟩) =
        (if (dayFloor (if (startOfMonth ⟨2025, 9, 20, 0⟩).key <
              (⟨"Fabrication", ⟨2025, 8, 15, 0⟩, ⟨2025, 9, 7, 0⟩, "#7aa7ff"⟩ : NormTask).start.key
            then (⟨"Fabrication", ⟨2025, 8, 15, 0⟩, ⟨2025, 9, 7, 0⟩, "#7aa7ff"⟩ : NormTask).start
            else startOfMonth ⟨2025, 9, 20, 0⟩)).key ≤
            (dayFloor (if (⟨"Fabrication", ⟨2025, 8, 15, 0⟩, ⟨2025, 9, 7, 0⟩,
                "#7aa7ff"⟩ : NormTask).endD.key < (endOfMonth ⟨2025, 9, 20, 0⟩).key
              then (⟨"Fabrication", ⟨2025, 8, 15, 0⟩, ⟨2025, 9, 7, 0⟩, "#7aa7ff"⟩ : NormTask).endD
              else endOfMonth ⟨2025, 9, 20, 0⟩)).key
          then some (if (startOfMonth ⟨2025, 9, 20, 0⟩).key <
              (⟨"Fabrication", ⟨2025, 8, 15, 0⟩, ⟨2025, 9, 7, 0⟩, "#7aa7ff"⟩ : NormTask).start.key
            then (⟨"Fabrication", ⟨2025, 8, 15, 0⟩, ⟨2025, 9, 7, 0⟩, "#7aa7ff"⟩ : NormTask).start
            else startOfMonth ⟨2025, 9, 20, 0⟩,
            if (⟨"Fabrication", ⟨2025, 8, 15, 0⟩, ⟨2025, 9, 7, 0⟩,
                "#7aa7ff"⟩ : NormTask).endD.key < (endOfMonth ⟨2025, 9, 20, 0⟩).key
            then (⟨"Fabrication", ⟨2025, 8, 15, 0⟩, ⟨2025, 9, 7, 0⟩, "#7aa7ff"⟩ : NormTask).endD
            else endOfMonth ⟨2025, 9, 20, 0⟩)
          else none) ∧
      (clampIntervalToMonth
          (⟨"Fabrication", ⟨2025, 8, 15, 0⟩, ⟨2025, 9, 7, 0⟩, "#7aa7ff"⟩ : NormTask).start
          (⟨"Fabrication", ⟨2025, 8, 15, 0⟩, ⟨2025, 9, 7, 0⟩, "#7aa7ff"⟩ : NormTask).endD
          (startOfMonth ⟨2025, 9, 20, 0⟩) (endOfMonth ⟨2025, 9, 20, 0⟩) = none →
        taskRowForMonth true (startOfMonth ⟨2025, 9, 20, 0⟩) (endOfMonth ⟨2025, 9, 20, 0⟩)
          (daysInMonth (startOfMonth ⟨2025, 9, 20, 0⟩).year
            (startOfMonth ⟨2025, 9, 20, 0⟩).month)
          (⟨"Fabrication", ⟨2025, 8, 15, 0⟩, ⟨2025, 9, 7, 0⟩, "#7aa7ff"⟩ : NormTask) = none))) :=
  ⟨by decide, by decide,
    clampIntervalToMonth_c3 ⟨"Fabrication", ⟨2025, 8, 15, 0⟩, ⟨2025, 9, 7, 0⟩, "#7aa7ff"⟩
      ⟨2025, 9, 20, 0⟩ true (by decide) (by decide)⟩

theorem renderGantt_occupied_union_witness :
    renderGanttAsTables sampleTasks sampleOptions = Except.ok sampleOut ∧
    (∀ rt ∈ sampleTasks, validRawB rt = true) ∧
    normalizeTasks sampleOptions.defaultColor 0 sampleTasks = Except.ok sampleNorm ∧
    (⟨"Fabrication", ⟨2025, 8, 15, 0⟩, ⟨2025, 9, 7, 0⟩, "#7aa7ff"⟩ : NormTask) ∈ sampleNorm ∧
    validDateB ⟨2025, 9, 3, 0⟩ = true ∧
    ((((⟨"Fabrication", ⟨2025, 8, 15, 0⟩, ⟨2025, 9, 7, 0⟩, "#7aa7ff"⟩ : NormTask).start.key ≤
          (⟨2025, 9, 3, 0⟩ : JSDate).key ∧
        (⟨2025, 9, 3, 0⟩ : JSDate).key ≤
          (⟨"Fabrication", ⟨2025, 8, 15, 0⟩, ⟨2025, 9, 7, 0⟩, "#7aa7ff"⟩ : NormTask).endD.key) ↔
        ∃ g ∈ sampleOut.grids, GridMarksDayFor sampleOptions.shadeWeekends
          ⟨"Fabrication", ⟨2025, 8, 15, 0⟩, ⟨2025, 9, 7, 0⟩, "#7aa7ff"⟩ ⟨2025, 9, 3, 0⟩ g) ∧
      (∀ g1 ∈ sampleOut.grids, ∀ g2 ∈ sampleOut.grids,
        GridMarksDayFor sampleOptions.shadeWeekends
          ⟨"Fabrication", ⟨2025, 8, 15, 0⟩, ⟨2025, 9, 7, 0⟩, "#7aa7ff"⟩ ⟨2025, 9, 3, 0⟩ g1 →
        GridMarksDayFor sampleOptions.shadeWeekends
          ⟨"Fabrication", ⟨2025, 8, 15, 0⟩, ⟨2025, 9, 7, 0⟩, "#7aa7ff"⟩ ⟨2025, 9, 3, 0⟩ g2 →
        g1 = g2)) :=
  ⟨rfl, by decide, rfl, by decide, by decide,
    renderGantt_occupied_union sampleTasks sampleOptions sampleOut sampleNorm
      ⟨"Fabrication", ⟨2025, 8, 15, 0⟩, ⟨2025, 9, 7, 0⟩, "#7aa7ff"⟩ ⟨2025, 9, 3, 0⟩
      rfl (by decide) rfl (by decide) (by decide)⟩

theorem exists_grid_marks
    {tasks : List RawTask} {options : RenderOptions} {out : RenderOutput}
    {norm : List NormTask} {t : NormTask} {d : JSDate}
    (hrun : renderGanttAsTables tasks options = Except.ok out)
    (hval : ∀ rt ∈ tasks, validRawB rt = true)
    (hnorm : normalizeTasks options.defaultColor 0 tasks = Except.ok norm)
    (ht : t ∈ norm) (hd : validDateB d = true)
    (h1 : t.start.key ≤ d.key) (h2 : d.key ≤ t.endD.key) :
    ∃ g ∈ out.grids, GridMarksDayFor options.shadeWeekends t d g := by
  obtain ⟨hgrids, hne⟩ := render_ok_grids hrun hnorm
  have hvalid := normalizeTasks_valid hval hnorm
  obtain ⟨hs, he, hse⟩ := hvalid t ht
  have hbd := validDateB_bounded hd
  cases norm with
  | nil => exact absurd rfl hne
  | cons t0 rest =>
  have hcov : monthIdx t.start ≤ monthIdx d ∧ monthIdx d ≤ monthIdx t.endD :=
    ⟨monthIdx_le_of_key_le (validDateB_bounded hs) hbd h1,
     monthIdx_le_of_key_le hbd (validDateB_bounded he) h2⟩
  have hfi : monthIdx (startOfMonth (minStartDate t0.start (t0 :: rest))) ≤ monthIdx d := by
    rw [monthIdx_startOfMonth]
    exact le_trans (minStart_monthIdx_le hvalid (List.mem_cons_self _ _) ht) hcov.1
  have hli : monthIdx d ≤ monthIdx (startOfMonth (maxEndDate t0.endD (t0 :: rest))) := by
    rw [monthIdx_startOfMonth]
    exact le_trans hcov.2 (maxEnd_monthIdx_ge hvalid (List.mem_cons_self _ _) ht)
  obtain ⟨s, e, hclamp, hrow⟩ :=
    @taskRow_some_at options.shadeWeekends t (monthIdx d) hs he hse hcov
  have hrmem : mkTaskRow options.shadeWeekends (monthStartOfIdx (monthIdx d))
      (daysInMonth (monthIdx d / 12) (monthIdx d % 12)) t (s, e) ∈
        (t0 :: rest).filterMap (taskRowForMonth options.shadeWeekends
          (monthStartOfIdx (monthIdx d)) (endOfMonth (monthStartOfIdx (monthIdx d)))
          (daysInMonth (monthIdx d / 12) (monthIdx d % 12))) :=
    List.mem_filterMap.mpr ⟨t, ht, hrow⟩
  have hnonempty : (t0 :: rest).filterMap (taskRowForMonth options.shadeWeekends
      (monthStartOfIdx (monthIdx d)) (endOfMonth (monthStartOfIdx (monthIdx d)))
      (daysInMonth (monthIdx d / 12) (monthIdx d % 12))) ≠ [] := by
    intro hnil
    rw [hnil] at hrmem
    simp at hrmem
  obtain ⟨g, hb⟩ := buildMonthGrid_some_of_rows_ne hnonempty
  obtain ⟨hy, hmn, hdc, hrows, _⟩ := buildMonthGrid_eq_some hb
  have hcm := monthIdx_eq_components ⟨hbd.1, hbd.2.1⟩ (rfl : monthIdx d = monthIdx d)
  refine ⟨g, ?_, ?_, ?_, ?_⟩
  · rw [hgrids, partition_eq]
    exact List.mem_filterMap.mpr ⟨monthIdx d, (mem_monthIndices _ _ _).mpr ⟨hfi, hli⟩, hb⟩
  · rw [hy, ← hcm.1]
  · rw [hmn, ← hcm.2]
  · refine ⟨_, hrow, ?_, ?_⟩
    · rw [hrows]
      exact hrmem
    · rw [mkTaskRow_marks_day_iff hs he hclamp, mkDay_eq_self hd]
      have hdle := validDateB_day_le hd
      rw [hcm.1, hcm.2] at hdle
      exact ⟨hbd.2.2.1, hdle, h1, h2⟩

theorem dayRange_nodup (dim : Int) : (dayRange dim).Nodup := by
  unfold dayRange
  exact (List.nodup_range _).map (fun a b h => by omega)

/-- C8: a task with start = end gets a row in exactly the month containing
that day; the grid of that month is emitted and marks that day for it; the
day numbers of its row cells are exactly the distinct day numbers of the
month, and a day number is marked occupied exactly when it equals the day of
start, so exactly one day is occupied. -/
theorem renderGantt_single_day
    (tasks : List RawTask) (options : RenderOptions) (out : RenderOutput)
    (norm : List NormTask) (t : NormTask)
    (hrun : renderGanttAsTables tasks options = Except.ok out)
    (hval : ∀ rt ∈ tasks, validRawB rt = true)
    (hnorm : normalizeTasks options.defaultColor 0 tasks = Except.ok norm)
    (ht : t ∈ norm) (heq : t.start = t.endD) :
    (∀ i : Int, ((taskRowForMonth options.shadeWeekends (monthStartOfIdx i)
        (endOfMonth (monthStartOfIdx i)) (daysInMonth (i / 12) (i % 12)) t).isSome = true ↔
        i = monthIdx t.start)) ∧
    (∃ g ∈ out.grids, GridMarksDayFor options.shadeWeekends t t.start g) ∧
    (∀ row, taskRowForMonth options.shadeWeekends (monthStartOfIdx (monthIdx t.start))
        (endOfMonth (monthStartOfIdx (monthIdx t.start)))
        (daysInMonth (monthIdx t.start / 12) (monthIdx t.start % 12)) t = some row →
      (row.cells.map (fun c => c.dayNumber) =
          dayRange (daysInMonth (monthIdx t.start / 12) (monthIdx t.start % 12)) ∧
        (dayRange (daysInMonth (monthIdx t.start / 12) (monthIdx t.start % 12))).Nodup ∧
        ∀ dd : Int, (RowMarksDay row dd ↔ dd = t.start.day))) := by
  have hvalid := normalizeTasks_valid hval hnorm
  obtain ⟨hs, he, hse⟩ := hvalid t ht
  have hbs := validDateB_bounded hs
  refine ⟨?_, ?_, ?_⟩
  · intro i
    rw [taskRowForMonth_isSome, clampMonth_isSome_iff hs he hse, ← heq]
    omega
  · exact exists_grid_marks hrun hval hnorm ht hs (le_refl _) (by rw [← heq])
  · intro row hrow
    unfold taskRowForMonth at hrow
    rw [Option.map_eq_some'] at hrow
    obtain ⟨⟨s, e⟩, hclamp, rfl⟩ := hrow
    refine ⟨?_, dayRange_nodup _, ?_⟩
    · unfold mkTaskRow
      simp only [List.map_map]
      exact List.map_id _
    · intro dd
      rw [mkTaskRow_marks_day_iff hs he hclamp]
      constructor
      · rintro ⟨ha1, ha2, ha3, ha4⟩
        have hkeq : (mkDay (monthIdx t.start) dd).key = t.start.key := by
          rw [← heq] at ha4
          omega
        have hbmk : Bounded (mkDay (monthIdx t.start) dd) := by
          refine bounded_mkDay ha1 ?_
          have := daysInMonth_le (monthIdx t.start / 12) (monthIdx t.start % 12)
          omega
        have hdeq := key_inj hbmk hbs hkeq
        have hdd := congrArg JSDate.day hdeq
        simpa [mkDay] using hdd
      · rintro rfl
        have hcm := monthIdx_eq_components ⟨hbs.1, hbs.2.1⟩
          (rfl : monthIdx t.start = monthIdx t.start)
        have hdle := validDateB_day_le hs
        rw [hcm.1, hcm.2] at hdle
        rw [mkDay_eq_self hs]
        exact ⟨hbs.2.2.1, hdle, le_refl _, by rw [← heq]⟩

theorem renderGantt_single_day_witness :
    renderGanttAsTables singleDayTasks sampleOptions = Except.ok singleDayOut ∧
    (∀ rt ∈ singleDayTasks, validRawB rt = true) ∧
    normalizeTasks sampleOptions.defaultColor 0 singleDayTasks =
      Except.ok [⟨"Jalon", ⟨2025, 8, 12, 0⟩, ⟨2025, 8, 12, 0⟩, "#7aa7ff"⟩] ∧
    (⟨"Jalon", ⟨2025, 8, 12, 0⟩, ⟨2025, 8, 12, 0⟩, "#7aa7ff"⟩ : NormTask).start =
      (⟨"Jalon", ⟨2025, 8, 12, 0⟩, ⟨2025, 8, 12, 0⟩, "#7aa7ff"⟩ : NormTask).endD ∧
    ((∀ i : Int, ((taskRowForMonth sampleOptions.shadeWeekends (monthStartOfIdx i)
        (endOfMonth (monthStartOfIdx i)) (daysInMonth (i / 12) (i % 12))
        (⟨"Jalon", ⟨2025, 8, 12, 0⟩, ⟨2025, 8, 12, 0⟩, "#7aa7ff"⟩ : NormTask)).isSome = true ↔
        i = monthIdx (⟨"Jalon", ⟨2025, 8, 12, 0⟩, ⟨2025, 8, 12, 0⟩, "#7aa7ff"⟩ : NormTask).start)) ∧
      (∃ g ∈ singleDayOut.grids, GridMarksDayFor sampleOptions.shadeWeekends
        ⟨"Jalon", ⟨2025, 8, 12, 0⟩, ⟨2025, 8, 12, 0⟩, "#7aa7ff"⟩
        (⟨"Jalon", ⟨2025, 8, 12, 0⟩, ⟨2025, 8, 12, 0⟩, "#7aa7ff"⟩ : NormTask).start g) ∧
      (∀ row, taskRowForMonth sampleOptions.shadeWeekends
          (monthStartOfIdx (monthIdx (⟨"Jalon", ⟨2025, 8, 12, 0⟩, ⟨2025, 8, 12, 0⟩,
            "#7aa7ff"⟩ : NormTask).start))
          (endOfMonth (monthStartOfIdx (monthIdx (⟨"Jalon", ⟨2025, 8, 12, 0⟩, ⟨2025, 8, 12, 0⟩,
            "#7aa7ff"⟩ : NormTask).start)))
          (daysInMonth (monthIdx (⟨"Jalon", ⟨2025, 8, 12, 0⟩, ⟨2025, 8, 12, 0⟩,
              "#7aa7ff"⟩ : NormTask).start / 12)
            (monthIdx (⟨"Jalon", ⟨2025, 8, 12, 0⟩, ⟨2025, 8, 12, 0⟩,
              "#7aa7ff"⟩ : NormTask).start % 12))
          ⟨"Jalon", ⟨2025, 8, 12, 0⟩, ⟨2025, 8, 12, 0⟩, "#7aa7ff"⟩ = some row →
        (row.cells.map (fun c => c.dayNumber) =
            dayRange (daysInMonth (monthIdx (⟨"Jalon", ⟨2025, 8, 12, 0⟩, ⟨2025, 8, 12, 0⟩,
                "#7aa7ff"⟩ : NormTask).start / 12)
              (monthIdx (⟨"Jalon", ⟨2025, 8, 12, 0⟩, ⟨2025, 8, 12, 0⟩,
                "#7aa7ff"⟩ : NormTask).start % 12)) ∧
          (dayRange (daysInMonth (monthIdx (⟨"Jalon", ⟨2025, 8, 12, 0⟩, ⟨2025, 8, 12, 0⟩,
              "#7aa7ff"⟩ : NormTask).start / 12)
            (monthIdx (⟨"Jalon", ⟨2025, 8, 12, 0⟩, ⟨2025, 8, 12, 0⟩,
              "#7aa7ff"⟩ : NormTask).start % 12))).Nodup ∧
          ∀ dd : Int, (RowMarksDay row dd ↔
            dd = (⟨"Jalon", ⟨2025, 8, 12, 0⟩, ⟨2025, 8, 12, 0⟩,
              "#7aa7ff"⟩ : NormTask).start.day)))) :=
  ⟨rfl, by decide, rfl, rfl,
    renderGantt_single_day singleDayTasks sampleOptions singleDayOut
      [⟨"Jalon", ⟨2025, 8, 12, 0⟩, ⟨2025, 8, 12, 0⟩, "#7aa7ff"⟩]
      ⟨"Jalon", ⟨2025, 8, 12, 0⟩, ⟨2025, 8, 12, 0⟩, "#7aa7ff"⟩
      rfl (by decide) rfl (by decide) rfl⟩

theorem normOne_error_of_malformed {dc : String} {i : Nat} {t : RawTask}
    (h : malformedB t = true) : normOne dc i t = Except.error (errMsgFor i t) := by
  unfold malformedB missingFieldB badDatesB at h
  unfold normOne errMsgFor missingFieldB
  split
  · next hc => rfl
  · next hc =>
      rw [Bool.or_eq_true] at h
      rcases h with h | h
      · exact absurd h hc
      · cases hst : t.start with
        | missing => rw [hst] at hc
        | unparseable => rfl
        | parsed s =>
            cases hen : t.endD with
            | missing => rw [hen] at hc
            | unparseable => rfl
            | parsed e =>
                rw [hst, hen] at h
                simp only [decide_eq_true_eq] at h
                dsimp only
                rw [if_pos h]

theorem normOne_ok_of_wellformed {dc : String} {i : Nat} {t : RawTask}
    (h : malformedB t = false) : ∃ nt, normOne dc i t = Except.ok nt := by
  unfold malformedB missingFieldB badDatesB at h
  rw [Bool.or_eq_false_iff] at h
  obtain ⟨h1, h2⟩ := h
  unfold normOne
  rw [if_neg (by rw [h1]; simp)]
  cases hst : t.start with
  | missing => rw [hst] at h2; simp at h2
  | unparseable => rw [hst] at h2; simp at h2
  | parsed s =>
      cases hen : t.endD with
      | missing => rw [hst, hen] at h2; simp at h2
      | unparseable => rw [hst, hen] at h2; simp at h2
      | parsed e =>
          rw [hst, hen] at h2
          simp only [decide_eq_false_iff_not] at h2
          dsimp only
          rw [if_neg h2]
          exact ⟨_, rfl⟩

theorem normalizeTasks_error_first {dc : String} {ts : List RawTask} :
    ∀ base : Nat, (∃ t ∈ ts, malformedB t = true) →
      ∃ j tj, ts.get? j = some tj ∧ malformedB tj = true ∧
        (∀ k tk, ts.get? k = some tk → k < j → malformedB tk = false) ∧
        normalizeTasks dc base ts = Except.error (errMsgFor (base + j) tj) := by
  induction ts with
  | nil =>
      intro base h
      simp at h
  | cons t ts ih =>
      intro base h
      by_cases hm : malformedB t = true
      · refine ⟨0, t, rfl, hm, ?_, ?_⟩
        · intro k tk _ hk
          omega
        · unfold normalizeTasks
          rw [normOne_error_of_malformed hm]
          exact rfl
      · have hmf : malformedB t = false := by
          cases hq : malformedB t
          · rfl
          · exact absurd hq hm
        have hrest : ∃ u ∈ ts, malformedB u = true := by
          rcases h with ⟨u, hu, hub⟩
          rcases List.mem_cons.mp hu with rfl | hu2
          · exact absurd hub hm
          · exact ⟨u, hu2, hub⟩
        obtain ⟨j, tj, hget, hbadj, hfirst, herr⟩ := ih (base + 1) hrest
        refine ⟨j + 1, tj, hget, hbadj, ?_, ?_⟩
        · intro k tk hk hkj
          cases k with
          | zero =>
              simp only [List.get?] at hk
              cases hk
              exact hmf
          | succ k2 =>
              exact hfirst k2 tk hk (by omega)
        · unfold normalizeTasks
          obtain ⟨nt, hok⟩ := @normOne_ok_of_wellformed dc base t hmf
          rw [hok, herr]
          have harith : base + 1 + j = base + (j + 1) := by omega
          rw [harith]

/-- C2 (amended): when the task list contains a malformed task (missing or
falsy required field, unparseable date, or start > end) and the container
resolves, the call fails before any partitioning with the error of the first
malformed task, which identifies that task by its index when a required
field is missing and otherwise by its label, and no output is produced. -/
theorem renderGantt_validation_error
    (tasks : List RawTask) (options : RenderOptions)
    (hm : options.mountFound = true)
    (hbad : ∃ t ∈ tasks, malformedB t = true) :
    ∃ j tj, tasks.get? j = some tj ∧ malformedB tj = true ∧
      (∀ k tk, tasks.get? k = some tk → k < j → malformedB tk = false) ∧
      renderGanttAsTables tasks options = Except.error (errMsgFor j tj) := by
  obtain ⟨j, tj, hget, hbadj, hfirst, herr⟩ :=
    @normalizeTasks_error_first options.defaultColor tasks 0 hbad
  refine ⟨j, tj, hget, hbadj, hfirst, ?_⟩
  unfold renderGanttAsTables
  rw [hm]
  cases tasks with
  | nil =>
      rcases hbad with ⟨u, hu, _⟩
      simp at hu
  | cons t ts =>
      rw [herr]
      simp

theorem renderGantt_validation_error_witness :
    sampleOptions.mountFound = true ∧
    (∃ t ∈ [(⟨some "A", DateField.parsed ⟨2025, 0, 2, 0⟩, DateField.parsed ⟨2025, 0, 1, 0⟩,
        none⟩ : RawTask)], malformedB t = true) ∧
    (∃ j tj, [(⟨some "A", DateField.parsed ⟨2025, 0, 2, 0⟩, DateField.parsed ⟨2025, 0, 1, 0⟩,
          none⟩ : RawTask)].get? j = some tj ∧ malformedB tj = true ∧
      (∀ k tk, [(⟨some "A", DateField.parsed ⟨2025, 0, 2, 0⟩, DateField.parsed ⟨2025, 0, 1, 0⟩,
          none⟩ : RawTask)].get? k = some tk → k < j → malformedB tk = false) ∧
      renderGanttAsTables [⟨some "A", DateField.parsed ⟨2025, 0, 2, 0⟩,
          DateField.parsed ⟨2025, 0, 1, 0⟩, none⟩] sampleOptions =
        Except.error (errMsgFor j tj)) :=
  ⟨rfl, by decide,
    renderGantt_validation_error
      [⟨some "A", DateField.parsed ⟨2025, 0, 2, 0⟩, DateField.parsed ⟨2025, 0, 1, 0⟩, none⟩]
      sampleOptions rfl (by decide)⟩

/-- C2 as stated is false on the code: for a task whose start exceeds its
end, the thrown message mentions the label but contains no digit at all, so
it cannot identify the offending task by its index; the code identifies a
task by index only for the missing-field error and by label only for the
date error, never by both. -/
theorem renderGantt_validation_error_counterexample :
    renderGanttAsTables [⟨some "A", DateField.parsed ⟨2025, 0, 2, 0⟩,
        DateField.parsed ⟨2025, 0, 1, 0⟩, none⟩]
      { mountFound := true, shadeWeekends := true, defaultColor := "#7aa7ff" } =
      Except.error
        "Dates invalides pour \"A\". Format attendu YYYY-MM-DD et start <= end." ∧
    ("Dates invalides pour \"A\". Format attendu YYYY-MM-DD et start <= end.".data.all
      (fun c => !c.isDigit)) = true := by
  constructor
  · rfl
  · decide
